import Mathlib

/-!
Verification of the Monkey parser (package `parser`, file `parser.go`) of the
repository Monkey-Interpreter-Go.  The parser is embedded shallowly: the token
stream is a `List Token`, the parser state carries the current and peek token,
the not-yet-delivered rest of the stream and the accumulated error messages,
and every parse function of `parser.go` becomes a fuel-indexed Lean function
on that state.  The `token`, `lexer` and `ast` packages of the repository are
not part of the given sources; the definitions that stand in for them are
modelled from the specification and say so in their doc comments.
-/

namespace Monkey

/-- Modelled from the spec: the token kinds of the `token` package (the package
itself is not under `src/`).  Spec section 3 lists: ILLEGAL, EOF, IDENT, INT,
STRING, the operator punctuation, the delimiters and the keywords. -/
inductive TokenType where
  | ILLEGAL | EOF | IDENT | INT | STRING
  | ASSIGN | PLUS | MINUS | BANG | ASTERISK | SLASH | LT | GT | EQ | NOT_EQ
  | COMMA | SEMICOLON | COLON
  | LPAREN | RPAREN | LBRACE | RBRACE | LBRACKET | RBRACKET
  | FUNCTION | LET | TRUE | FALSE | IF | ELSE | RETURN
deriving DecidableEq, Repr

/-- Modelled from the spec: the string value of each token type.  In the Go
`token` package a `TokenType` is a string; the spec fixes the display of the
operator kinds by their punctuation (the parser error test of spec section 8
shows `=` for ASSIGN and `INT` for INT) and of the named kinds by their
upper-case names. -/
def TokenType.str : TokenType → String
  | .ILLEGAL  => "ILLEGAL"
  | .EOF      => "EOF"
  | .IDENT    => "IDENT"
  | .INT      => "INT"
  | .STRING   => "STRING"
  | .ASSIGN   => "="
  | .PLUS     => "+"
  | .MINUS    => "-"
  | .BANG     => "!"
  | .ASTERISK => "*"
  | .SLASH    => "/"
  | .LT       => "<"
  | .GT       => ">"
  | .EQ       => "=="
  | .NOT_EQ   => "!="
  | .COMMA    => ","
  | .SEMICOLON => ";"
  | .COLON    => ":"
  | .LPAREN   => "("
  | .RPAREN   => ")"
  | .LBRACE   => "\x7b"
  | .RBRACE   => "\x7d"
  | .LBRACKET => "["
  | .RBRACKET => "]"
  | .FUNCTION => "FUNCTION"
  | .LET      => "LET"
  | .TRUE     => "TRUE"
  | .FALSE    => "FALSE"
  | .IF       => "IF"
  | .ELSE     => "ELSE"
  | .RETURN   => "RETURN"

/-- A token, as in the Go `token` package: `Token{Type, Literal}`. -/
structure Token where
  type : TokenType
  literal : String
deriving DecidableEq, Repr

/-- Modelled from the spec (section 4.1): at end of input the lexer returns
`EOF` -- repeatably -- and the `Token` zero value carries the empty literal. -/
def eofToken : Token := ⟨.EOF, ""⟩

/-! ### A model of Go's `strconv.ParseInt`

`parseIntegerLiteral` in `parser.go` calls `strconv.ParseInt(literal, 0, 64)`
of the Go standard library (external to this repository).  The definitions
below model that call faithfully for the specialisation used by the parser:
base argument `0` (so the base is inferred from the literal's prefix) and bit
size `64`.  Characters are treated as their code points; the lexer only ever
produces ASCII digit runs as INT literals. -/

/-- Go's `lower(c) = c | ('x' - 'X')`, as a code point. -/
def goLower (c : Char) : Nat := c.toNat ||| 32

/-- The two error kinds of Go's `strconv` number parsing. -/
inductive NumError where
  | syntaxErr | rangeErr
deriving DecidableEq, Repr

def maxUint64 : Nat := 18446744073709551615

def maxInt64 : Int := 9223372036854775807

def minInt64 : Int := -9223372036854775808

/-- The digit classification of the conversion loop of `strconv.ParseUint`:
decimal digits and (case-folded) letters are digits, everything else is a
syntax error. -/
def digitVal (c : Char) : Option Nat :=
  if '0'.toNat ≤ c.toNat ∧ c.toNat ≤ '9'.toNat then some (c.toNat - '0'.toNat)
  else if 'a'.toNat ≤ goLower c ∧ goLower c ≤ 'z'.toNat then some (goLower c - 'a'.toNat + 10)
  else none

/-- The conversion loop of `strconv.ParseUint`, called with base argument `0`
(so underscores are skipped and recorded in the returned flag).  Returns the
accumulated value, the error if any, and whether an underscore was seen. -/
def parseUintLoop (base cutoff maxVal : Nat) :
    List Char → Nat → Bool → (Nat × Option NumError × Bool)
  | [], n, us => (n, none, us)
  | c :: cs, n, us =>
    if c = '_' then parseUintLoop base cutoff maxVal cs n true
    else match digitVal c with
      | none => (0, some .syntaxErr, us)
      | some d =>
        if base ≤ d then (0, some .syntaxErr, us)
        else if cutoff ≤ n then (maxVal, some .rangeErr, us)
        else
          let n1 := n * base + d
          if maxVal < n1 then (maxVal, some .rangeErr, us)
          else parseUintLoop base cutoff maxVal cs n1 us

/-- The per-character state machine of Go's `strconv.underscoreOK`: `saw` is
the class of the previous character (`^` start, `0` digit or base prefix,
`_` underscore, `!` other). -/
def underscoreOKLoop (hex : Bool) : List Char → Char → Bool
  | [], saw => saw ≠ '_'
  | c :: cs, saw =>
    if ('0'.toNat ≤ c.toNat ∧ c.toNat ≤ '9'.toNat) ∨
        (hex ∧ 'a'.toNat ≤ goLower c ∧ goLower c ≤ 'f'.toNat) then
      underscoreOKLoop hex cs '0'
    else if c = '_' then
      if saw ≠ '0' then false else underscoreOKLoop hex cs '_'
    else if saw = '_' then false
    else underscoreOKLoop hex cs '!'

/-- Go's `strconv.underscoreOK`: underscores may only separate digits (and may
follow a base prefix). -/
def underscoreOK (s : List Char) : Bool :=
  let s1 := match s with
    | c :: cs => if c = '-' ∨ c = '+' then cs else s
    | [] => s
  match s1 with
  | c0 :: c1 :: rest =>
    if c0 = '0' ∧ (goLower c1 = 'b'.toNat ∨ goLower c1 = 'o'.toNat ∨ goLower c1 = 'x'.toNat) then
      underscoreOKLoop (decide (goLower c1 = 'x'.toNat)) rest '0'
    else underscoreOKLoop false s1 '^'
  | _ => underscoreOKLoop false s1 '^'

/-- Go's `strconv.ParseUint(s, 0, 64)`: detects the base from the prefix
(`0b`/`0o`/`0x`, a bare leading `0` meaning octal, base 10 otherwise), then
runs the conversion loop with `cutoff = maxUint64/base + 1`. -/
def goParseUint (s : List Char) : Nat × Option NumError :=
  match s with
  | [] => (0, some .syntaxErr)
  | c0 :: rest =>
    let bd : Nat × List Char :=
      if c0 = '0' then
        match rest with
        | c1 :: rest2 =>
          if 3 ≤ s.length ∧ goLower c1 = 'b'.toNat then (2, rest2)
          else if 3 ≤ s.length ∧ goLower c1 = 'o'.toNat then (8, rest2)
          else if 3 ≤ s.length ∧ goLower c1 = 'x'.toNat then (16, rest2)
          else (8, rest)
        | [] => (8, rest)
      else (10, s)
    let cutoff := maxUint64 / bd.1 + 1
    match parseUintLoop bd.1 cutoff maxUint64 bd.2 0 false with
    | (n, some e, _) => (n, some e)
    | (n, none, us) => if us ∧ ¬ underscoreOK s then (0, some .syntaxErr) else (n, none)

/-- Go's `strconv.ParseInt(s, 0, 64)`: strips an optional sign, parses the
rest as unsigned, and clamps to the `int64` range with a range error. -/
def goParseInt (s : String) : Int × Option NumError :=
  match s.data with
  | [] => (0, some .syntaxErr)
  | c0 :: rest =>
    let nb : Bool × List Char :=
      if c0 = '+' then (false, rest)
      else if c0 = '-' then (true, rest)
      else (false, c0 :: rest)
    match goParseUint nb.2 with
    | (_, some .syntaxErr) => (0, some .syntaxErr)
    | (un, _) =>
      if ¬ nb.1 ∧ 2 ^ 63 ≤ un then (maxInt64, some .rangeErr)
      else if nb.1 ∧ 2 ^ 63 < un then (minInt64, some .rangeErr)
      else ((if nb.1 then -(un : Int) else (un : Int)), none)

/-- Models Go's `fmt` verb `%q` for the strings it is applied to in
`parser.go`: the argument is an INT token literal (a digit run from the
lexer), for which `%q` just wraps the string in double quotes. -/
def goQuote (s : String) : String := "\"" ++ s ++ "\""

/-! ### The AST

Modelled from the spec (section 3): the `ast` package is not under `src/`.
Fields that hold a Go pointer or interface that can be nil are `Option`s;
fields that hold a Go slice that can be the nil slice are `Option`s of lists.

One point needs care.  `parseStatement` in `parser.go` has return type
`ast.Statement` (a Go interface) and its `token.LET` case returns the result
of `parseLetStatement`, whose type is the pointer `*ast.LetStatement`.  When
that pointer is nil, the implicit conversion to the interface type produces an
interface value that holds a nil pointer but is itself NOT equal to `nil`.
`StmtVal` models such an interface value: either a real statement node or the
typed nil `*ast.LetStatement`. -/

/-- `ast.Identifier`: a token and its literal value. -/
structure Identifier where
  token : Token
  value : String
deriving DecidableEq, Repr

mutual

/-- `ast.Expression` variants, modelled from the spec.  `hashLiteral` keeps
the key/value pairs as the sequence of entries of the Go map
`map[ast.Expression]ast.Expression` in insertion order; every key inserted by
`parseHashLiteral` is a freshly allocated node, so Go's interface equality
(dynamic type and pointer) never identifies two inserted keys and every
insertion creates a new entry.  Iteration order of the Go map is a separate
matter, modelled by `goMapIterOrders` below. -/
inductive Expression where
  | identifier (i : Identifier)
  | integerLiteral (token : Token) (value : Int)
  | boolean (token : Token) (value : Bool)
  | stringLiteral (token : Token) (value : String)
  | prefixExpression (token : Token) (operator : String) (right : Option Expression)
  | infixExpression (token : Token) (operator : String) (left : Option Expression)
      (right : Option Expression)
  | ifExpression (token : Token) (condition : Option Expression)
      (consequence : BlockStatement) (alternative : Option BlockStatement)
  | functionLiteral (token : Token) (parameters : Option (List Identifier))
      (body : BlockStatement)
  | callExpression (token : Token) (function : Option Expression)
      (arguments : Option (List (Option Expression)))
  | arrayLiteral (token : Token) (elements : Option (List (Option Expression)))
  | indexExpression (token : Token) (left : Option Expression) (index : Option Expression)
  | hashLiteral (token : Token) (pairs : List (Option Expression × Option Expression))

/-- `ast.Statement` node variants, modelled from the spec. -/
inductive Statement where
  | letStatement (token : Token) (name : Identifier) (value : Option Expression)
  | returnStatement (token : Token) (returnValue : Option Expression)
  | expressionStatement (token : Token) (expression : Option Expression)

/-- A non-nil `ast.Statement` interface value: a statement node, or a nil
`*ast.LetStatement` wrapped in the interface (see the section comment). -/
inductive StmtVal where
  | typedNilLet
  | node (s : Statement)

/-- `ast.BlockStatement`: the `{` token and the contained statements. -/
inductive BlockStatement where
  | mk (token : Token) (statements : List StmtVal)

end

/-- `ast.Program`: the list of top-level statements (as interface values). -/
structure Program where
  Statements : List StmtVal

/-- Modelled from the Go language specification: iterating a Go map (`range`)
may yield its entries in any order; the possible iteration sequences of a map
whose entries are `pairs` are exactly the permutations of `pairs`. -/
def goMapIterOrders (pairs : List (Option Expression × Option Expression)) :
    Set (List (Option Expression × Option Expression)) :=
  setOf fun l => List.Perm l pairs

/-! ### Parser state and the non-recursive helpers of `parser.go` -/

/-- The state of `parser.Parser`: the current and peek tokens, the tokens the
lexer has not yet delivered (`rest`), and the accumulated error messages. -/
structure ParserState where
  curToken : Token
  peekToken : Token
  rest : List Token
  errors : List String
deriving DecidableEq, Repr

/-- One step of the lexer: deliver the next token, or `EOF` (repeatably, as
the spec says) once the input is exhausted. -/
def lexNext : List Token → Token × List Token
  | [] => (eofToken, [])
  | t :: ts => (t, ts)

/-- `parser.nextToken`: `curToken = peekToken; peekToken = lexer.NextToken()`. -/
def nextToken (st : ParserState) : ParserState :=
  { st with curToken := st.peekToken,
            peekToken := (lexNext st.rest).1,
            rest := (lexNext st.rest).2 }

/-- `parser.New`: a parser over the given token stream, after the two initial
`nextToken` calls that fill `curToken` and `peekToken`. -/
def newParser (tokens : List Token) : ParserState :=
  { curToken := (lexNext tokens).1,
    peekToken := (lexNext (lexNext tokens).2).1,
    rest := (lexNext (lexNext tokens).2).2,
    errors := [] }

/-- `parser.curTokenIs`. -/
def curTokenIs (st : ParserState) (t : TokenType) : Bool := st.curToken.type = t

/-- `parser.peekTokenIs`. -/
def peekTokenIs (st : ParserState) (t : TokenType) : Bool := st.peekToken.type = t

/-- `parser.Errors`. -/
def Errors (st : ParserState) : List String := st.errors

/-- `parser.peekError`: append
`expected next token to be <want>, got <got> instead`. -/
def peekError (st : ParserState) (t : TokenType) : ParserState :=
  { st with errors := st.errors ++
      ["expected next token to be " ++ t.str ++ ", got " ++ st.peekToken.type.str ++
        " instead"] }

/-- `parser.expectPeek`: advance on a match, record a peek error otherwise. -/
def expectPeek (st : ParserState) (t : TokenType) : Bool × ParserState :=
  if peekTokenIs st t then (true, nextToken st) else (false, peekError st t)

/-- `parser.noPrefixPerseFnErrror` (name as in the source): append
`no prefix parse function for <kind> found`. -/
def noPrefixPerseFnErrror (st : ParserState) (t : TokenType) : ParserState :=
  { st with errors := st.errors ++ ["no prefix parse function for " ++ t.str ++ " found"] }

/-- The precedence constants of `parser.go` (an iota block starting at 1). -/
def LOWEST : Nat := 1

def EQUALS : Nat := 2

def LESSGREATER : Nat := 3

def SUM : Nat := 4

def PRODUCT : Nat := 5

def PREFIX : Nat := 6

def CALL : Nat := 7

def INDEX : Nat := 8

/-- The `precedences` map of `parser.go`. -/
def precedences : TokenType → Option Nat
  | .EQ => some EQUALS
  | .NOT_EQ => some EQUALS
  | .LT => some LESSGREATER
  | .GT => some LESSGREATER
  | .PLUS => some SUM
  | .MINUS => some SUM
  | .SLASH => some PRODUCT
  | .ASTERISK => some PRODUCT
  | .LPAREN => some CALL
  | .LBRACKET => some INDEX
  | _ => none

/-- `parser.getPrecedence`: map lookup with default `LOWEST`. -/
def getPrecedence (t : TokenType) : Nat := (precedences t).getD LOWEST

/-- `parser.peekPrecedence`. -/
def peekPrecedence (st : ParserState) : Nat := getPrecedence st.peekToken.type

/-- `parser.curPrecendence` (name as in the source). -/
def curPrecendence (st : ParserState) : Nat := getPrecedence st.curToken.type

/-- `parser.parseIdentifier`: build an identifier from the current token. -/
def parseIdentifier (st : ParserState) : Expression :=
  .identifier ⟨st.curToken, st.curToken.literal⟩

/-- `parser.parseIntegerLiteral`: `strconv.ParseInt(literal, 0, 64)`; on error
append `could not parse <%q literal> as integer`; the node carries the value
returned by `ParseInt` in either case. -/
def parseIntegerLiteral (st : ParserState) : Expression × ParserState :=
  let v := goParseInt st.curToken.literal
  let st1 := match v.2 with
    | some _ => { st with errors := st.errors ++
        ["could not parse " ++ goQuote st.curToken.literal ++ " as integer"] }
    | none => st
  (.integerLiteral st.curToken v.1, st1)

/-- `parser.parseBoolean`: the value is whether the current token is `TRUE`. -/
def parseBoolean (st : ParserState) : Expression :=
  .boolean st.curToken (curTokenIs st .TRUE)

/-- `parser.parseStringLiteral`. -/
def parseStringLiteral (st : ParserState) : Expression :=
  .stringLiteral st.curToken st.curToken.literal

/-- The prefix handlers registered in `parser.New` (`registerPrefixFn`). -/
inductive PrefixFn where
  | identifierFn | integerLiteralFn | prefixExpressionFn | booleanFn
  | groupedExpressionFn | ifExpressionFn | functionLiteralFn | stringLiteralFn
  | arrayLiteralFn | hashLiteralFn
deriving DecidableEq, Repr

/-- The `prefixParseFn` map as registered in `parser.New`. -/
def prefixParseFn : TokenType → Option PrefixFn
  | .IDENT => some .identifierFn
  | .INT => some .integerLiteralFn
  | .BANG => some .prefixExpressionFn
  | .MINUS => some .prefixExpressionFn
  | .TRUE => some .booleanFn
  | .FALSE => some .booleanFn
  | .LPAREN => some .groupedExpressionFn
  | .IF => some .ifExpressionFn
  | .FUNCTION => some .functionLiteralFn
  | .STRING => some .stringLiteralFn
  | .LBRACKET => some .arrayLiteralFn
  | .LBRACE => some .hashLiteralFn
  | _ => none

/-- The infix handlers registered in `parser.New` (`registerInfixFn`). -/
inductive InfixFn where
  | infixExpressionFn | callExpressionFn | indexExpressionFn
deriving DecidableEq, Repr

/-- The `infixParseFn` map as registered in `parser.New`. -/
def infixParseFn : TokenType → Option InfixFn
  | .PLUS => some .infixExpressionFn
  | .MINUS => some .infixExpressionFn
  | .SLASH => some .infixExpressionFn
  | .ASTERISK => some .infixExpressionFn
  | .EQ => some .infixExpressionFn
  | .NOT_EQ => some .infixExpressionFn
  | .LT => some .infixExpressionFn
  | .GT => some .infixExpressionFn
  | .LPAREN => some .callExpressionFn
  | .LBRACKET => some .indexExpressionFn
  | _ => none

/-! ### The recursive parse functions

The mutually recursive functions of `parser.go` are defined together as the
fields of a `Parsers` record built by recursion on a fuel parameter: at fuel
`fuel + 1` every (mutual) call runs at fuel `fuel`, and at fuel `0` every
function answers `none`.  A result `none` therefore means only "out of fuel";
the Go value `nil` is the inner `Option`/`StmtVal` as in the AST model.  The
`for` loops of the source become the `...Loop` functions, carrying the
variables the loop updates. -/

/-- The signatures of the mutually recursive parse functions of `parser.go`. -/
structure Parsers where
  parseProgramLoop : List StmtVal → ParserState → Option (List StmtVal × ParserState)
  parseStatement : ParserState → Option (Option StmtVal × ParserState)
  parseLetStatement : ParserState → Option (Option Statement × ParserState)
  parseReturnStatement : ParserState → Option (Statement × ParserState)
  parseExpressionStatement : ParserState → Option (Statement × ParserState)
  parseExpression : Nat → ParserState → Option (Option Expression × ParserState)
  parseExpressionLoop : Nat → Option Expression → ParserState →
    Option (Option Expression × ParserState)
  callPrefixFn : PrefixFn → ParserState → Option (Option Expression × ParserState)
  callInfixFn : InfixFn → Option Expression → ParserState →
    Option (Option Expression × ParserState)
  parsePrefixExpression : ParserState → Option (Expression × ParserState)
  parseInfixExpression : Option Expression → ParserState → Option (Expression × ParserState)
  parseGroupedExpression : ParserState → Option (Option Expression × ParserState)
  parseIfExpression : ParserState → Option (Option Expression × ParserState)
  parseBlockStatement : ParserState → Option (BlockStatement × ParserState)
  parseBlockLoop : Token → List StmtVal → ParserState →
    Option (BlockStatement × ParserState)
  parseFunctionLiteral : ParserState → Option (Option Expression × ParserState)
  parseFunctionParameters : ParserState → Option (Option (List Identifier) × ParserState)
  parseFunctionParametersLoop : List Identifier → ParserState →
    Option (Option (List Identifier) × ParserState)
  parseCallExpression : Option Expression → ParserState → Option (Expression × ParserState)
  parseExpressionList : TokenType → ParserState →
    Option (Option (List (Option Expression)) × ParserState)
  parseExpressionListLoop : TokenType → List (Option Expression) → ParserState →
    Option (Option (List (Option Expression)) × ParserState)
  parseIndexExpression : Option Expression → ParserState →
    Option (Option Expression × ParserState)
  parseArrayLiteral : ParserState → Option (Expression × ParserState)
  parseHashLiteral : ParserState → Option (Option Expression × ParserState)
  parseHashLoop : Token → List (Option Expression × Option Expression) → ParserState →
    Option (Option Expression × ParserState)

/-- The out-of-fuel record: every function answers `none`. -/
def failParsers : Parsers where
  parseProgramLoop := fun _ _ => none
  parseStatement := fun _ => none
  parseLetStatement := fun _ => none
  parseReturnStatement := fun _ => none
  parseExpressionStatement := fun _ => none
  parseExpression := fun _ _ => none
  parseExpressionLoop := fun _ _ _ => none
  callPrefixFn := fun _ _ => none
  callInfixFn := fun _ _ _ => none
  parsePrefixExpression := fun _ => none
  parseInfixExpression := fun _ _ => none
  parseGroupedExpression := fun _ => none
  parseIfExpression := fun _ => none
  parseBlockStatement := fun _ => none
  parseBlockLoop := fun _ _ _ => none
  parseFunctionLiteral := fun _ => none
  parseFunctionParameters := fun _ => none
  parseFunctionParametersLoop := fun _ _ => none
  parseCallExpression := fun _ _ => none
  parseExpressionList := fun _ _ => none
  parseExpressionListLoop := fun _ _ _ => none
  parseIndexExpression := fun _ _ => none
  parseArrayLiteral := fun _ => none
  parseHashLiteral := fun _ => none
  parseHashLoop := fun _ _ _ => none

/-- The parse functions of `parser.go`, by recursion on fuel.  Each field is a
direct transcription of the corresponding Go function; the `...Loop` fields
are the bodies of the source's `for` loops. -/
def mkParsers : Nat → Parsers
  | 0 => failParsers
  | fuel + 1 =>
    let P := mkParsers fuel
    { -- the loop of `ParseProgram`
      parseProgramLoop := fun acc st =>
        if curTokenIs st .EOF then some (acc, st)
        else
          match P.parseStatement st with
          | none => none
          | some (stmtI, st1) =>
            let acc1 := match stmtI with
              | some v => acc ++ [v]
              | none => acc
            P.parseProgramLoop acc1 (nextToken st1)
      -- `parseStatement`; in the LET case the `*ast.LetStatement` result is
      -- converted to the interface type, so a nil pointer becomes the
      -- non-nil interface value `StmtVal.typedNilLet`
      parseStatement := fun st =>
        match st.curToken.type with
        | .LET =>
          match P.parseLetStatement st with
          | none => none
          | some (p, st1) =>
            some (some (match p with | none => .typedNilLet | some s => .node s), st1)
        | .RETURN =>
          match P.parseReturnStatement st with
          | none => none
          | some (s, st1) => some (some (.node s), st1)
        | _ =>
          match P.parseExpressionStatement st with
          | none => none
          | some (s, st1) => some (some (.node s), st1)
      parseLetStatement := fun st =>
        let tok := st.curToken
        match expectPeek st .IDENT with
        | (false, st1) => some (none, st1)
        | (true, st1) =>
          let name : Identifier := ⟨st1.curToken, st1.curToken.literal⟩
          match expectPeek st1 .ASSIGN with
          | (false, st2) => some (none, st2)
          | (true, st2) =>
            let st3 := nextToken st2
            match P.parseExpression LOWEST st3 with
            | none => none
            | some (v, st4) =>
              let st5 := if peekTokenIs st4 .SEMICOLON then nextToken st4 else st4
              some (some (.letStatement tok name v), st5)
      parseReturnStatement := fun st =>
        let tok := st.curToken
        let st1 := nextToken st
        match P.parseExpression LOWEST st1 with
        | none => none
        | some (v, st2) =>
          let st3 := if peekTokenIs st2 .SEMICOLON then nextToken st2 else st2
          some (.returnStatement tok v, st3)
      parseExpressionStatement := fun st =>
        let tok := st.curToken
        match P.parseExpression LOWEST st with
        | none => none
        | some (e, st1) =>
          let st2 := if peekTokenIs st1 .SEMICOLON then nextToken st1 else st1
          some (.expressionStatement tok e, st2)
      parseExpression := fun precedence st =>
        match prefixParseFn st.curToken.type with
        | none => some (none, noPrefixPerseFnErrror st st.curToken.type)
        | some fn =>
          match P.callPrefixFn fn st with
          | none => none
          | some (left, st1) => P.parseExpressionLoop precedence left st1
      -- the `for` loop of `parseExpression`
      parseExpressionLoop := fun precedence left st =>
        if ¬ (peekTokenIs st .SEMICOLON) ∧ precedence < peekPrecedence st then
          match infixParseFn st.peekToken.type with
          | none => some (left, st)
          | some fn =>
            let st1 := nextToken st
            match P.callInfixFn fn left st1 with
            | none => none
            | some (e, st2) => P.parseExpressionLoop precedence e st2
        else some (left, st)
      -- invoking the registered prefix handler (`prefix()` in the source);
      -- handlers whose Go return type is a concrete non-nil node are wrapped
      -- into the interface as `some`
      callPrefixFn := fun fn st =>
        match fn with
        | .identifierFn => some (some (parseIdentifier st), st)
        | .integerLiteralFn =>
          let r := parseIntegerLiteral st
          some (some r.1, r.2)
        | .prefixExpressionFn =>
          match P.parsePrefixExpression st with
          | none => none
          | some (e, st1) => some (some e, st1)
        | .booleanFn => some (some (parseBoolean st), st)
        | .groupedExpressionFn => P.parseGroupedExpression st
        | .ifExpressionFn => P.parseIfExpression st
        | .functionLiteralFn => P.parseFunctionLiteral st
        | .stringLiteralFn => some (some (parseStringLiteral st), st)
        | .arrayLiteralFn =>
          match P.parseArrayLiteral st with
          | none => none
          | some (e, st1) => some (some e, st1)
        | .hashLiteralFn => P.parseHashLiteral st
      -- invoking the registered infix handler (`infix(leftExpression)`)
      callInfixFn := fun fn left st =>
        match fn with
        | .infixExpressionFn =>
          match P.parseInfixExpression left st with
          | none => none
          | some (e, st1) => some (some e, st1)
        | .callExpressionFn =>
          match P.parseCallExpression left st with
          | none => none
          | some (e, st1) => some (some e, st1)
        | .indexExpressionFn => P.parseIndexExpression left st
      parsePrefixExpression := fun st =>
        let tok := st.curToken
        let op := st.curToken.literal
        let st1 := nextToken st
        match P.parseExpression PREFIX st1 with
        | none => none
        | some (right, st2) => some (.prefixExpression tok op right, st2)
      parseInfixExpression := fun left st =>
        let tok := st.curToken
        let op := st.curToken.literal
        let precedence := curPrecendence st
        let st1 := nextToken st
        match P.parseExpression precedence st1 with
        | none => none
        | some (right, st2) => some (.infixExpression tok op left right, st2)
      parseGroupedExpression := fun st =>
        let st1 := nextToken st
        match P.parseExpression LOWEST st1 with
        | none => none
        | some (e, st2) =>
          match expectPeek st2 .RPAREN with
          | (false, st3) => some (none, st3)
          | (true, st3) => some (e, st3)
      parseIfExpression := fun st =>
        let tok := st.curToken
        match expectPeek st .LPAREN with
        | (false, st1) => some (none, st1)
        | (true, st1) =>
          let st2 := nextToken st1
          match P.parseExpression LOWEST st2 with
          | none => none
          | some (cond, st3) =>
            match expectPeek st3 .RPAREN with
            | (false, st4) => some (none, st4)
            | (true, st4) =>
              match expectPeek st4 .LBRACE with
              | (false, st5) => some (none, st5)
              | (true, st5) =>
                match P.parseBlockStatement st5 with
                | none => none
                | some (cons, st6) =>
                  if peekTokenIs st6 .ELSE then
                    let st7 := nextToken st6
                    match expectPeek st7 .LBRACE with
                    | (false, st8) => some (none, st8)
                    | (true, st8) =>
                      match P.parseBlockStatement st8 with
                      | none => none
                      | some (alt, st9) =>
                        some (some (.ifExpression tok cond cons (some alt)), st9)
                  else some (some (.ifExpression tok cond cons none), st6)
      parseBlockStatement := fun st =>
        let tok := st.curToken
        P.parseBlockLoop tok [] (nextToken st)
      -- the `for` loop of `parseBlockStatement`
      parseBlockLoop := fun tok acc st =>
        if ¬ curTokenIs st .RBRACE ∧ ¬ curTokenIs st .EOF then
          match P.parseStatement st with
          | none => none
          | some (stmtI, st1) =>
            let acc1 := match stmtI with
              | some v => acc ++ [v]
              | none => acc
            P.parseBlockLoop tok acc1 (nextToken st1)
        else some (.mk tok acc, st)
      parseFunctionLiteral := fun st =>
        let tok := st.curToken
        match expectPeek st .LPAREN with
        | (false, st1) => some (none, st1)
        | (true, st1) =>
          match P.parseFunctionParameters st1 with
          | none => none
          | some (params, st2) =>
            match expectPeek st2 .LBRACE with
            | (false, st3) => some (none, st3)
            | (true, st3) =>
              match P.parseBlockStatement st3 with
              | none => none
              | some (body, st4) => some (some (.functionLiteral tok params body), st4)
      parseFunctionParameters := fun st =>
        if peekTokenIs st .RPAREN then some (some [], nextToken st)
        else
          let st1 := nextToken st
          P.parseFunctionParametersLoop [⟨st1.curToken, st1.curToken.literal⟩] st1
      -- the `for` loop of `parseFunctionParameters`
      parseFunctionParametersLoop := fun acc st =>
        if peekTokenIs st .COMMA then
          let st1 := nextToken (nextToken st)
          P.parseFunctionParametersLoop (acc ++ [⟨st1.curToken, st1.curToken.literal⟩]) st1
        else
          match expectPeek st .RPAREN with
          | (false, st1) => some (none, st1)
          | (true, st1) => some (some acc, st1)
      parseCallExpression := fun function st =>
        let tok := st.curToken
        match P.parseExpressionList .RPAREN st with
        | none => none
        | some (args, st1) => some (.callExpression tok function args, st1)
      parseExpressionList := fun endT st =>
        if peekTokenIs st endT then some (some [], nextToken st)
        else
          let st1 := nextToken st
          match P.parseExpression LOWEST st1 with
          | none => none
          | some (e, st2) => P.parseExpressionListLoop endT [e] st2
      -- the `for` loop of `parseExpressionList`
      parseExpressionListLoop := fun endT acc st =>
        if peekTokenIs st .COMMA then
          let st1 := nextToken (nextToken st)
          match P.parseExpression LOWEST st1 with
          | none => none
          | some (e, st2) => P.parseExpressionListLoop endT (acc ++ [e]) st2
        else
          match expectPeek st endT with
          | (false, st1) => some (none, st1)
          | (true, st1) => some (some acc, st1)
      parseIndexExpression := fun left st =>
        let tok := st.curToken
        let st1 := nextToken st
        match P.parseExpression LOWEST st1 with
        | none => none
        | some (idx, st2) =>
          match expectPeek st2 .RBRACKET with
          | (false, st3) => some (none, st3)
          | (true, st3) => some (some (.indexExpression tok left idx), st3)
      parseArrayLiteral := fun st =>
        let tok := st.curToken
        match P.parseExpressionList .RBRACKET st with
        | none => none
        | some (elems, st1) => some (.arrayLiteral tok elems, st1)
      parseHashLiteral := fun st =>
        let tok := st.curToken
        P.parseHashLoop tok [] st
      -- the `for` loop of `parseHashLiteral`; `pairs ++ [(key, value)]` is
      -- `hash.Pairs[key] = value` on the Go map (the key is a fresh node, so
      -- the insertion always creates a new entry)
      parseHashLoop := fun tok pairs st =>
        if ¬ peekTokenIs st .RBRACE then
          let st1 := nextToken st
          match P.parseExpression LOWEST st1 with
          | none => none
          | some (key, st2) =>
            match expectPeek st2 .COLON with
            | (false, st3) => some (none, st3)
            | (true, st3) =>
              let st4 := nextToken st3
              match P.parseExpression LOWEST st4 with
              | none => none
              | some (value, st5) =>
                let pairs1 := pairs ++ [(key, value)]
                if ¬ peekTokenIs st5 .RBRACE then
                  match expectPeek st5 .COMMA with
                  | (false, st6) => some (none, st6)
                  | (true, st6) => P.parseHashLoop tok pairs1 st6
                else P.parseHashLoop tok pairs1 st5
        else
          match expectPeek st .RBRACE with
          | (false, st1) => some (none, st1)
          | (true, st1) => some (some (.hashLiteral tok pairs), st1) }

/-- `parser.ParseProgram`: run the statement loop from the empty program. -/
def ParseProgram (fuel : Nat) (st : ParserState) : Option (Program × ParserState) :=
  match (mkParsers fuel).parseProgramLoop [] st with
  | none => none
  | some (stmts, st1) => some (⟨stmts⟩, st1)

/-- The token-consumption measure used for the termination argument: the
undelivered tokens weighted by 4, plus 2 if the peek token is not `EOF`, plus
1 if the current token is not `EOF`.  `nextToken` strictly decreases it
whenever it is positive. -/
def mu (st : ParserState) : Nat :=
  4 * st.rest.length + (if st.peekToken.type = .EOF then 0 else 2) +
    (if st.curToken.type = .EOF then 0 else 1)

/-- Fuel that is always sufficient for the whole parse of a token stream. -/
def stdFuel (tokens : List Token) : Nat := 4 * mu (newParser tokens) + 24

/-- Parse a whole token stream: `parser.New` followed by `ParseProgram`, with
sufficient fuel. -/
def parseTokens (tokens : List Token) : Option (Program × ParserState) :=
  ParseProgram (stdFuel tokens) (newParser tokens)

/-- Parse a token stream as a single expression at precedence `LOWEST` (the
way `parseExpressionStatement` enters `parseExpression`), with sufficient
fuel. -/
def parseExpressionTop (tokens : List Token) :
    Option (Option Expression × ParserState) :=
  (mkParsers (stdFuel tokens)).parseExpression LOWEST (newParser tokens)

/-- Uniform shape of the totality statements: with fuel at least `4 * mu + c`
the function answers (no fuel exhaustion) and never grows the measure. -/
def TotP {α : Type} (c fuel : Nat) (run : ParserState → Option (α × ParserState)) : Prop :=
  ∀ st, 4 * mu st + c ≤ fuel → ∃ r st', run st = some (r, st') ∧ mu st' ≤ mu st

/-- The plain base-10 value of a digit string, accumulator form (the reference
value that the integer-literal claim compares the parser against). -/
def decimalAcc (n : Nat) (ds : List Char) : Nat :=
  ds.foldl (fun a c => a * 10 + (c.toNat - 48)) n

/-- The plain base-10 value of a digit string: the decimal interpretation of
an INT literal that the claim speaks of. -/
def decimalValue (s : String) : Nat := decimalAcc 0 s.data

/-! ### Theorems -/

theorem mu_nextToken_le (st : ParserState) : mu (nextToken st) ≤ mu st := by
  obtain ⟨cur, peek, rest, errs⟩ := st
  rcases rest with _ | ⟨t, ts⟩ <;>
    simp only [mu, nextToken, lexNext, eofToken, List.length_cons, List.length_nil] <;>
    split_ifs <;> simp_all <;> omega

theorem mu_nextToken_lt (st : ParserState) (h : 0 < mu st) : mu (nextToken st) < mu st := by
  obtain ⟨cur, peek, rest, errs⟩ := st
  rcases rest with _ | ⟨t, ts⟩ <;>
    simp only [mu, nextToken, lexNext, eofToken, List.length_cons, List.length_nil] at * <;>
    split_ifs at * <;> simp_all <;> omega

theorem mu_pos_of_cur (st : ParserState) (h : ¬ st.curToken.type = .EOF) : 1 ≤ mu st := by
  simp only [mu]; split_ifs <;> simp_all <;> omega

theorem mu_pos_of_peek (st : ParserState) (h : ¬ st.peekToken.type = .EOF) : 2 ≤ mu st := by
  simp only [mu]; split_ifs <;> simp_all <;> omega

theorem mu_zero_cur (st : ParserState) (h : mu st = 0) : st.curToken.type = .EOF := by
  simp only [mu] at h; split_ifs at h <;> simp_all

theorem mu_zero_peek (st : ParserState) (h : mu st = 0) : st.peekToken.type = .EOF := by
  simp only [mu] at h; split_ifs at h <;> simp_all

theorem mu_peekError (st : ParserState) (t : TokenType) : mu (peekError st t) = mu st := rfl

theorem mu_noPrefixErr (st : ParserState) (t : TokenType) :
    mu (noPrefixPerseFnErrror st t) = mu st := rfl

theorem expectPeek_eq_false {st st' : ParserState} {t : TokenType}
    (h : expectPeek st t = (false, st')) : st' = peekError st t := by
  unfold expectPeek at h
  split_ifs at h <;> simp_all

theorem expectPeek_eq_true {st st' : ParserState} {t : TokenType}
    (h : expectPeek st t = (true, st')) :
    st' = nextToken st ∧ st.peekToken.type = t := by
  unfold expectPeek at h
  split_ifs at h with hp <;> simp_all [peekTokenIs]

theorem expectPeek_eq_false_mu {st st' : ParserState} {t : TokenType}
    (h : expectPeek st t = (false, st')) : mu st' = mu st := by
  rw [expectPeek_eq_false h, mu_peekError]

theorem expectPeek_eq_true_mu {st st' : ParserState} {t : TokenType}
    (h : expectPeek st t = (true, st')) (ht : t ≠ .EOF) : mu st' < mu st := by
  obtain ⟨h1, h2⟩ := expectPeek_eq_true h
  subst h1
  have h3 : 2 ≤ mu st := mu_pos_of_peek st (by rw [h2]; exact ht)
  exact mu_nextToken_lt st (by omega)

/-- At positive fuel, `parseExpression` on a token type with no registered
prefix handler records the no-prefix-parse-function error and returns nil
without touching the cursor. -/
theorem parseExpression_noPrefix (fuel p : Nat) (st : ParserState)
    (h : prefixParseFn st.curToken.type = none) :
    (mkParsers (fuel + 1)).parseExpression p st =
      some (none, noPrefixPerseFnErrror st st.curToken.type) := by
  simp only [mkParsers]
  simp [h]


theorem mu_parseIntegerLiteral (st : ParserState) :
    mu (parseIntegerLiteral st).2 = mu st := by
  unfold parseIntegerLiteral
  dsimp only []
  split <;> rfl

theorem infixParseFn_ne_eof {t : TokenType} {fn : InfixFn}
    (h : infixParseFn t = some fn) : ¬ t = .EOF := by
  cases t <;> simp_all [infixParseFn]

theorem mu_zero_rest (st : ParserState) (h : mu st = 0) : st.rest = [] := by
  simp only [mu] at h
  split_ifs at h <;> simp_all

theorem parseBlockLoop_eof (fuel : Nat) (tok : Token) (acc : List StmtVal)
    (st : ParserState) (h : st.curToken.type = .EOF) :
    (mkParsers (fuel + 1)).parseBlockLoop tok acc st = some (.mk tok acc, st) := by
  simp only [mkParsers]
  simp [curTokenIs, h]

set_option maxHeartbeats 4000000 in
theorem parsersTotal : ∀ fuel : Nat,
    (∀ acc, TotP 24 fuel ((mkParsers fuel).parseProgramLoop acc))
  ∧ TotP 23 fuel (mkParsers fuel).parseStatement
  ∧ TotP 22 fuel (mkParsers fuel).parseLetStatement
  ∧ TotP 22 fuel (mkParsers fuel).parseReturnStatement
  ∧ TotP 22 fuel (mkParsers fuel).parseExpressionStatement
  ∧ (∀ p, TotP 21 fuel ((mkParsers fuel).parseExpression p))
  ∧ (∀ p l, TotP 20 fuel ((mkParsers fuel).parseExpressionLoop p l))
  ∧ (∀ fn, TotP 20 fuel ((mkParsers fuel).callPrefixFn fn))
  ∧ (∀ fn l, TotP 20 fuel ((mkParsers fuel).callInfixFn fn l))
  ∧ TotP 19 fuel (mkParsers fuel).parsePrefixExpression
  ∧ (∀ l, TotP 19 fuel ((mkParsers fuel).parseInfixExpression l))
  ∧ TotP 19 fuel (mkParsers fuel).parseGroupedExpression
  ∧ TotP 19 fuel (mkParsers fuel).parseIfExpression
  ∧ TotP 23 fuel (mkParsers fuel).parseBlockStatement
  ∧ (∀ tok acc, TotP 24 fuel ((mkParsers fuel).parseBlockLoop tok acc))
  ∧ TotP 19 fuel (mkParsers fuel).parseFunctionLiteral
  ∧ TotP 19 fuel (mkParsers fuel).parseFunctionParameters
  ∧ (∀ acc, TotP 18 fuel ((mkParsers fuel).parseFunctionParametersLoop acc))
  ∧ (∀ l, TotP 19 fuel ((mkParsers fuel).parseCallExpression l))
  ∧ (∀ e, TotP 18 fuel ((mkParsers fuel).parseExpressionList e))
  ∧ (∀ e acc, TotP 17 fuel ((mkParsers fuel).parseExpressionListLoop e acc))
  ∧ (∀ l, TotP 19 fuel ((mkParsers fuel).parseIndexExpression l))
  ∧ TotP 19 fuel (mkParsers fuel).parseArrayLiteral
  ∧ TotP 19 fuel (mkParsers fuel).parseHashLiteral
  ∧ (∀ tok ps, TotP 18 fuel ((mkParsers fuel).parseHashLoop tok ps)) := by
  intro fuel
  induction fuel with
  | zero =>
    refine ⟨?_, ?_, ?_, ?_, ?_, ?_, ?_, ?_, ?_, ?_, ?_, ?_, ?_, ?_, ?_, ?_, ?_, ?_, ?_,
      ?_, ?_, ?_, ?_, ?_, ?_⟩ <;> (unfold TotP; intros; omega)
  | succ fuel ih =>
    obtain ⟨ihPL, ihS, ihLet, ihRet, ihES, ihPE, ihPEL, ihCP, ihCI, ihPre, ihInf, ihGrp,
      ihIf, ihBS, ihBL, ihFL, ihFP, ihFPL, ihCall, ihEL, ihELL, ihIdx, ihArr, ihHash,
      ihHL⟩ := ih
    refine ⟨?_, ?_, ?_, ?_, ?_, ?_, ?_, ?_, ?_, ?_, ?_, ?_, ?_, ?_, ?_, ?_, ?_, ?_, ?_,
      ?_, ?_, ?_, ?_, ?_, ?_⟩
    · -- parseProgramLoop
      intro acc st h
      by_cases hEOF : curTokenIs st .EOF = true
      · exact ⟨acc, st, by simp only [mkParsers]; simp [hEOF], le_refl _⟩
      · have hpos : 1 ≤ mu st := mu_pos_of_cur st (by simpa [curTokenIs] using hEOF)
        obtain ⟨r, st1, hS, hm1⟩ := ihS st (by omega)
        have hnle := mu_nextToken_le st1
        have hnlt := mu_nextToken_lt st1
        cases r with
        | none =>
          obtain ⟨r2, st2, hR, hm2⟩ := ihPL acc (nextToken st1) (by omega)
          refine ⟨r2, st2, ?_, by omega⟩
          simp only [mkParsers]
          rw [if_neg hEOF, hS]
          exact hR
        | some v =>
          obtain ⟨r2, st2, hR, hm2⟩ := ihPL (acc ++ [v]) (nextToken st1) (by omega)
          refine ⟨r2, st2, ?_, by omega⟩
          simp only [mkParsers]
          rw [if_neg hEOF, hS]
          exact hR
    · -- parseStatement
      intro st h
      cases ht : st.curToken.type <;>
        simp only [mkParsers, ht] <;>
        first
          | (obtain ⟨r, st1, hx, hm⟩ := ihLet st (by omega); rw [hx]; exact ⟨_, st1, rfl, hm⟩)
          | (obtain ⟨r, st1, hx, hm⟩ := ihRet st (by omega); rw [hx]; exact ⟨_, st1, rfl, hm⟩)
          | (obtain ⟨r, st1, hx, hm⟩ := ihES st (by omega); rw [hx]; exact ⟨_, st1, rfl, hm⟩)
    · -- parseLetStatement
      intro st h
      simp only [mkParsers]
      rcases h1 : expectPeek st .IDENT with ⟨b1, st1⟩
      cases b1 with
      | false =>
        refine ⟨none, st1, rfl, ?_⟩
        rw [expectPeek_eq_false_mu h1]
      | true =>
        dsimp only
        have hm1 : mu st1 < mu st := expectPeek_eq_true_mu h1 (by simp)
        rcases h2 : expectPeek st1 .ASSIGN with ⟨b2, st2⟩
        cases b2 with
        | false =>
          refine ⟨none, st2, rfl, ?_⟩
          have := expectPeek_eq_false_mu h2
          omega
        | true =>
          dsimp only
          have hm2 : mu st2 < mu st1 := expectPeek_eq_true_mu h2 (by simp)
          have hnle := mu_nextToken_le st2
          obtain ⟨v, st4, hPE, hm4⟩ := ihPE LOWEST (nextToken st2) (by omega)
          rw [hPE]
          refine ⟨_, _, rfl, ?_⟩
          have hnle4 := mu_nextToken_le st4
          split_ifs <;> omega
    · -- parseReturnStatement
      intro st h
      simp only [mkParsers]
      have hnle := mu_nextToken_le st
      obtain ⟨v, st2, hPE, hm2⟩ := ihPE LOWEST (nextToken st) (by omega)
      rw [hPE]
      refine ⟨_, _, rfl, ?_⟩
      have hnle2 := mu_nextToken_le st2
      split_ifs <;> omega
    · -- parseExpressionStatement
      intro st h
      simp only [mkParsers]
      obtain ⟨e, st1, hPE, hm1⟩ := ihPE LOWEST st (by omega)
      rw [hPE]
      refine ⟨_, _, rfl, ?_⟩
      have := mu_nextToken_le st1
      split_ifs <;> omega
    · -- parseExpression
      intro p st h
      simp only [mkParsers]
      rcases hpf : prefixParseFn st.curToken.type with _ | fn
      · refine ⟨none, _, rfl, ?_⟩
        rw [mu_noPrefixErr]
      · dsimp only
        obtain ⟨left, st1, hCP, hm1⟩ := ihCP fn st (by omega)
        obtain ⟨r2, st2, hL, hm2⟩ := ihPEL p left st1 (by omega)
        refine ⟨r2, st2, ?_, by omega⟩
        rw [hCP]
        exact hL
    · -- parseExpressionLoop
      intro p l st h
      simp only [mkParsers]
      by_cases hc : (¬ peekTokenIs st .SEMICOLON = true ∧ p < peekPrecedence st)
      · rw [if_pos hc]
        rcases hif : infixParseFn st.peekToken.type with _ | fn
        · exact ⟨l, st, rfl, le_refl _⟩
        · dsimp only
          have hne : ¬ st.peekToken.type = .EOF := infixParseFn_ne_eof hif
          have hpos : 2 ≤ mu st := mu_pos_of_peek st hne
          have hlt : mu (nextToken st) < mu st := mu_nextToken_lt st (by omega)
          obtain ⟨e, st2, hCI, hm2⟩ := ihCI fn l (nextToken st) (by omega)
          obtain ⟨r3, st3, hL, hm3⟩ := ihPEL p e st2 (by omega)
          refine ⟨r3, st3, ?_, by omega⟩
          rw [hCI]
          exact hL
      · rw [if_neg hc]
        exact ⟨l, st, rfl, le_refl _⟩
    · -- callPrefixFn
      intro fn st h
      cases fn with
      | identifierFn =>
        refine ⟨some (parseIdentifier st), st, ?_, le_refl _⟩
        simp only [mkParsers]
      | integerLiteralFn =>
        refine ⟨some (parseIntegerLiteral st).1, (parseIntegerLiteral st).2, ?_,
          le_of_eq (mu_parseIntegerLiteral st)⟩
        simp only [mkParsers]
      | prefixExpressionFn =>
        obtain ⟨e, st1, hx, hm⟩ := ihPre st (by omega)
        refine ⟨some e, st1, ?_, hm⟩
        simp only [mkParsers]
        rw [hx]
      | booleanFn =>
        refine ⟨some (parseBoolean st), st, ?_, le_refl _⟩
        simp only [mkParsers]
      | groupedExpressionFn =>
        obtain ⟨e, st1, hx, hm⟩ := ihGrp st (by omega)
        refine ⟨e, st1, ?_, hm⟩
        simp only [mkParsers]
        exact hx
      | ifExpressionFn =>
        obtain ⟨e, st1, hx, hm⟩ := ihIf st (by omega)
        refine ⟨e, st1, ?_, hm⟩
        simp only [mkParsers]
        exact hx
      | functionLiteralFn =>
        obtain ⟨e, st1, hx, hm⟩ := ihFL st (by omega)
        refine ⟨e, st1, ?_, hm⟩
        simp only [mkParsers]
        exact hx
      | stringLiteralFn =>
        refine ⟨some (parseStringLiteral st), st, ?_, le_refl _⟩
        simp only [mkParsers]
      | arrayLiteralFn =>
        obtain ⟨e, st1, hx, hm⟩ := ihArr st (by omega)
        refine ⟨some e, st1, ?_, hm⟩
        simp only [mkParsers]
        rw [hx]
      | hashLiteralFn =>
        obtain ⟨e, st1, hx, hm⟩ := ihHash st (by omega)
        refine ⟨e, st1, ?_, hm⟩
        simp only [mkParsers]
        exact hx
    · -- callInfixFn
      intro fn l st h
      cases fn with
      | infixExpressionFn =>
        obtain ⟨e, st1, hx, hm⟩ := ihInf l st (by omega)
        refine ⟨some e, st1, ?_, hm⟩
        simp only [mkParsers]
        rw [hx]
      | callExpressionFn =>
        obtain ⟨e, st1, hx, hm⟩ := ihCall l st (by omega)
        refine ⟨some e, st1, ?_, hm⟩
        simp only [mkParsers]
        rw [hx]
      | indexExpressionFn =>
        obtain ⟨e, st1, hx, hm⟩ := ihIdx l st (by omega)
        refine ⟨e, st1, ?_, hm⟩
        simp only [mkParsers]
        exact hx
    · -- parsePrefixExpression
      intro st h
      simp only [mkParsers]
      rcases Nat.eq_zero_or_pos (mu st) with h0 | h0
      · have hpk := mu_zero_peek st h0
        have hcur : (nextToken st).curToken.type = .EOF := by simp [nextToken, hpk]
        obtain ⟨g, rfl⟩ : ∃ g, fuel = g + 1 := ⟨fuel - 1, by omega⟩
        rw [parseExpression_noPrefix g PREFIX (nextToken st)
          (by rw [hcur]; simp [prefixParseFn])]
        refine ⟨_, _, rfl, ?_⟩
        rw [mu_noPrefixErr]
        exact mu_nextToken_le st
      · have hlt := mu_nextToken_lt st h0
        obtain ⟨r, st2, hPE, hm⟩ := ihPE PREFIX (nextToken st) (by omega)
        rw [hPE]
        exact ⟨_, st2, rfl, by omega⟩
    · -- parseInfixExpression
      intro l st h
      simp only [mkParsers]
      rcases Nat.eq_zero_or_pos (mu st) with h0 | h0
      · have hpk := mu_zero_peek st h0
        have hcur : (nextToken st).curToken.type = .EOF := by simp [nextToken, hpk]
        obtain ⟨g, rfl⟩ : ∃ g, fuel = g + 1 := ⟨fuel - 1, by omega⟩
        rw [parseExpression_noPrefix g (curPrecendence st) (nextToken st)
          (by rw [hcur]; simp [prefixParseFn])]
        refine ⟨_, _, rfl, ?_⟩
        rw [mu_noPrefixErr]
        exact mu_nextToken_le st
      · have hlt := mu_nextToken_lt st h0
        obtain ⟨r, st2, hPE, hm⟩ := ihPE (curPrecendence st) (nextToken st) (by omega)
        rw [hPE]
        exact ⟨_, st2, rfl, by omega⟩
    · -- parseGroupedExpression
      intro st h
      simp only [mkParsers]
      rcases Nat.eq_zero_or_pos (mu st) with h0 | h0
      · have hpk := mu_zero_peek st h0
        have hcur : (nextToken st).curToken.type = .EOF := by simp [nextToken, hpk]
        obtain ⟨g, rfl⟩ : ∃ g, fuel = g + 1 := ⟨fuel - 1, by omega⟩
        rw [parseExpression_noPrefix g LOWEST (nextToken st)
          (by rw [hcur]; simp [prefixParseFn])]
        dsimp only
        rcases h2 : expectPeek (noPrefixPerseFnErrror (nextToken st)
            (nextToken st).curToken.type) .RPAREN with ⟨b2, st3⟩
        have h5 := mu_nextToken_le st
        have h4 := mu_noPrefixErr (nextToken st) (nextToken st).curToken.type
        cases b2 with
        | false =>
          refine ⟨none, st3, rfl, ?_⟩
          have h3 := expectPeek_eq_false_mu h2
          omega
        | true =>
          dsimp only
          refine ⟨none, st3, rfl, ?_⟩
          have h3 := expectPeek_eq_true_mu h2 (by simp)
          omega
      · have hlt := mu_nextToken_lt st h0
        obtain ⟨e, st2, hPE, hm⟩ := ihPE LOWEST (nextToken st) (by omega)
        rw [hPE]
        dsimp only
        rcases h2 : expectPeek st2 .RPAREN with ⟨b2, st3⟩
        cases b2 with
        | false =>
          refine ⟨none, st3, rfl, ?_⟩
          have := expectPeek_eq_false_mu h2
          omega
        | true =>
          dsimp only
          refine ⟨e, st3, rfl, ?_⟩
          have := expectPeek_eq_true_mu h2 (by simp)
          omega
    · -- parseIfExpression
      intro st h
      simp only [mkParsers]
      rcases h1 : expectPeek st .LPAREN with ⟨b1, st1⟩
      cases b1 with
      | false =>
        refine ⟨none, st1, rfl, ?_⟩
        rw [expectPeek_eq_false_mu h1]
      | true =>
        dsimp only
        have hm1 : mu st1 < mu st := expectPeek_eq_true_mu h1 (by simp)
        have hn2 := mu_nextToken_le st1
        obtain ⟨cond, st3, hPE, hm3⟩ := ihPE LOWEST (nextToken st1) (by omega)
        rw [hPE]
        dsimp only
        rcases h4 : expectPeek st3 .RPAREN with ⟨b4, st4⟩
        cases b4 with
        | false =>
          refine ⟨none, st4, rfl, ?_⟩
          have := expectPeek_eq_false_mu h4
          omega
        | true =>
          dsimp only
          have hm4 : mu st4 < mu st3 := expectPeek_eq_true_mu h4 (by simp)
          rcases h5 : expectPeek st4 .LBRACE with ⟨b5, st5⟩
          cases b5 with
          | false =>
            refine ⟨none, st5, rfl, ?_⟩
            have := expectPeek_eq_false_mu h5
            omega
          | true =>
            dsimp only
            have hm5 : mu st5 < mu st4 := expectPeek_eq_true_mu h5 (by simp)
            obtain ⟨cons, st6, hBS, hm6⟩ := ihBS st5 (by omega)
            rw [hBS]
            dsimp only
            by_cases hElse : peekTokenIs st6 .ELSE = true
            · rw [if_pos hElse]
              have hpet : st6.peekToken.type = .ELSE := by
                simpa [peekTokenIs] using hElse
              have hmu6 : 2 ≤ mu st6 := mu_pos_of_peek st6 (by rw [hpet]; simp)
              have hlt7 : mu (nextToken st6) < mu st6 := mu_nextToken_lt st6 (by omega)
              rcases h8 : expectPeek (nextToken st6) .LBRACE with ⟨b8, st8⟩
              cases b8 with
              | false =>
                refine ⟨none, st8, rfl, ?_⟩
                have := expectPeek_eq_false_mu h8
                omega
              | true =>
                dsimp only
                have hm8 : mu st8 < mu (nextToken st6) := expectPeek_eq_true_mu h8 (by simp)
                obtain ⟨alt, st9, hBS2, hm9⟩ := ihBS st8 (by omega)
                rw [hBS2]
                exact ⟨_, st9, rfl, by omega⟩
            · rw [if_neg hElse]
              exact ⟨_, st6, rfl, by omega⟩
    · -- parseBlockStatement
      intro st h
      simp only [mkParsers]
      rcases Nat.eq_zero_or_pos (mu st) with h0 | h0
      · have hpk := mu_zero_peek st h0
        have hcur : (nextToken st).curToken.type = .EOF := by simp [nextToken, hpk]
        obtain ⟨g, rfl⟩ : ∃ g, fuel = g + 1 := ⟨fuel - 1, by omega⟩
        exact ⟨_, _, parseBlockLoop_eof g st.curToken [] (nextToken st) hcur,
          mu_nextToken_le st⟩
      · have hlt := mu_nextToken_lt st h0
        obtain ⟨b, st2, hBL, hm⟩ := ihBL st.curToken [] (nextToken st) (by omega)
        exact ⟨b, st2, hBL, by omega⟩
    · -- parseBlockLoop
      intro tok acc st h
      by_cases hc : (¬ curTokenIs st .RBRACE = true ∧ ¬ curTokenIs st .EOF = true)
      · have hpos : 1 ≤ mu st := mu_pos_of_cur st (by simpa [curTokenIs] using hc.2)
        obtain ⟨r, st1, hS, hm1⟩ := ihS st (by omega)
        have hnle := mu_nextToken_le st1
        have hnlt := mu_nextToken_lt st1
        cases r with
        | none =>
          obtain ⟨r2, st2, hR, hm2⟩ := ihBL tok acc (nextToken st1) (by omega)
          refine ⟨r2, st2, ?_, by omega⟩
          simp only [mkParsers]
          rw [if_pos hc, hS]
          exact hR
        | some v =>
          obtain ⟨r2, st2, hR, hm2⟩ := ihBL tok (acc ++ [v]) (nextToken st1) (by omega)
          refine ⟨r2, st2, ?_, by omega⟩
          simp only [mkParsers]
          rw [if_pos hc, hS]
          exact hR
      · refine ⟨.mk tok acc, st, ?_, le_refl _⟩
        simp only [mkParsers]
        rw [if_neg hc]
    · -- parseFunctionLiteral
      intro st h
      simp only [mkParsers]
      rcases h1 : expectPeek st .LPAREN with ⟨b1, st1⟩
      cases b1 with
      | false =>
        refine ⟨none, st1, rfl, ?_⟩
        rw [expectPeek_eq_false_mu h1]
      | true =>
        dsimp only
        have hm1 : mu st1 < mu st := expectPeek_eq_true_mu h1 (by simp)
        obtain ⟨params, st2, hFP, hm2⟩ := ihFP st1 (by omega)
        rw [hFP]
        dsimp only
        rcases h3 : expectPeek st2 .LBRACE with ⟨b3, st3⟩
        cases b3 with
        | false =>
          refine ⟨none, st3, rfl, ?_⟩
          have := expectPeek_eq_false_mu h3
          omega
        | true =>
          dsimp only
          have hm3 : mu st3 < mu st2 := expectPeek_eq_true_mu h3 (by simp)
          obtain ⟨body, st4, hBS, hm4⟩ := ihBS st3 (by omega)
          rw [hBS]
          exact ⟨_, st4, rfl, by omega⟩
    · -- parseFunctionParameters
      intro st h
      simp only [mkParsers]
      by_cases hp : peekTokenIs st .RPAREN = true
      · rw [if_pos hp]
        exact ⟨some [], nextToken st, rfl, mu_nextToken_le st⟩
      · rw [if_neg hp]
        have hnle := mu_nextToken_le st
        obtain ⟨r, st2, hL, hm⟩ := ihFPL
          [⟨(nextToken st).curToken, (nextToken st).curToken.literal⟩] (nextToken st)
          (by omega)
        exact ⟨r, st2, hL, by omega⟩
    · -- parseFunctionParametersLoop
      intro acc st h
      by_cases hp : peekTokenIs st .COMMA = true
      · have hpet : st.peekToken.type = .COMMA := by simpa [peekTokenIs] using hp
        have hmu : 2 ≤ mu st := mu_pos_of_peek st (by rw [hpet]; simp)
        have hlt := mu_nextToken_lt st (by omega)
        have hle2 := mu_nextToken_le (nextToken st)
        obtain ⟨r, st2, hL, hm⟩ := ihFPL
          (acc ++ [⟨(nextToken (nextToken st)).curToken,
            (nextToken (nextToken st)).curToken.literal⟩]) (nextToken (nextToken st))
          (by omega)
        refine ⟨r, st2, ?_, by omega⟩
        simp only [mkParsers]
        rw [if_pos hp]
        exact hL
      · simp only [mkParsers]
        rw [if_neg hp]
        rcases h2 : expectPeek st .RPAREN with ⟨b2, st1⟩
        cases b2 with
        | false =>
          refine ⟨none, st1, rfl, ?_⟩
          rw [expectPeek_eq_false_mu h2]
        | true =>
          dsimp only
          refine ⟨some acc, st1, rfl, ?_⟩
          obtain ⟨hst, _⟩ := expectPeek_eq_true h2
          subst hst
          exact mu_nextToken_le st
    · -- parseCallExpression
      intro l st h
      simp only [mkParsers]
      obtain ⟨args, st1, hEL, hm⟩ := ihEL .RPAREN st (by omega)
      rw [hEL]
      exact ⟨_, st1, rfl, hm⟩
    · -- parseExpressionList
      intro e st h
      simp only [mkParsers]
      by_cases hp : peekTokenIs st e = true
      · rw [if_pos hp]
        exact ⟨some [], nextToken st, rfl, mu_nextToken_le st⟩
      · rw [if_neg hp]
        rcases Nat.eq_zero_or_pos (mu st) with h0 | h0
        · have hpk := mu_zero_peek st h0
          have hcur : (nextToken st).curToken.type = .EOF := by simp [nextToken, hpk]
          obtain ⟨g, rfl⟩ : ∃ g, fuel = g + 1 := ⟨fuel - 1, by omega⟩
          rw [parseExpression_noPrefix g LOWEST (nextToken st)
            (by rw [hcur]; simp [prefixParseFn])]
          dsimp only
          have h4 := mu_noPrefixErr (nextToken st) (nextToken st).curToken.type
          have h5 := mu_nextToken_le st
          obtain ⟨r, st2, hLL, hm⟩ := ihELL e [none]
            (noPrefixPerseFnErrror (nextToken st) (nextToken st).curToken.type) (by omega)
          rw [hLL]
          exact ⟨r, st2, rfl, by omega⟩
        · have hlt := mu_nextToken_lt st h0
          obtain ⟨e1, st2, hPE, hm2⟩ := ihPE LOWEST (nextToken st) (by omega)
          rw [hPE]
          dsimp only
          obtain ⟨r, st3, hLL, hm3⟩ := ihELL e [e1] st2 (by omega)
          exact ⟨r, st3, hLL, by omega⟩
    · -- parseExpressionListLoop
      intro e acc st h
      simp only [mkParsers]
      by_cases hp : peekTokenIs st .COMMA = true
      · rw [if_pos hp]
        have hpet : st.peekToken.type = .COMMA := by simpa [peekTokenIs] using hp
        have hmu : 2 ≤ mu st := mu_pos_of_peek st (by rw [hpet]; simp)
        have hlt1 : mu (nextToken st) < mu st := mu_nextToken_lt st (by omega)
        rcases Nat.eq_zero_or_pos (mu (nextToken st)) with h0 | h0
        · have hpk := mu_zero_peek (nextToken st) h0
          have hcur : (nextToken (nextToken st)).curToken.type = .EOF := hpk
          have hmu2 : mu (nextToken (nextToken st)) = 0 := by
            have := mu_nextToken_le (nextToken st); omega
          obtain ⟨g, rfl⟩ : ∃ g, fuel = g + 1 := ⟨fuel - 1, by omega⟩
          rw [parseExpression_noPrefix g LOWEST (nextToken (nextToken st))
            (by rw [hcur]; simp [prefixParseFn])]
          dsimp only
          have h4 := mu_noPrefixErr (nextToken (nextToken st))
            (nextToken (nextToken st)).curToken.type
          obtain ⟨r, st3, hLL, hm3⟩ := ihELL e (acc ++ [none])
            (noPrefixPerseFnErrror (nextToken (nextToken st))
              (nextToken (nextToken st)).curToken.type) (by omega)
          rw [hLL]
          exact ⟨r, st3, rfl, by omega⟩
        · have hlt2 := mu_nextToken_lt (nextToken st) h0
          obtain ⟨e1, st2, hPE, hm2⟩ := ihPE LOWEST (nextToken (nextToken st)) (by omega)
          rw [hPE]
          dsimp only
          obtain ⟨r, st3, hLL, hm3⟩ := ihELL e (acc ++ [e1]) st2 (by omega)
          exact ⟨r, st3, hLL, by omega⟩
      · rw [if_neg hp]
        rcases h2 : expectPeek st e with ⟨b2, st1⟩
        cases b2 with
        | false =>
          refine ⟨none, st1, rfl, ?_⟩
          rw [expectPeek_eq_false_mu h2]
        | true =>
          dsimp only
          refine ⟨some acc, st1, rfl, ?_⟩
          obtain ⟨hst, _⟩ := expectPeek_eq_true h2
          subst hst
          exact mu_nextToken_le st
    · -- parseIndexExpression
      intro l st h
      simp only [mkParsers]
      rcases Nat.eq_zero_or_pos (mu st) with h0 | h0
      · have hpk := mu_zero_peek st h0
        have hcur : (nextToken st).curToken.type = .EOF := by simp [nextToken, hpk]
        obtain ⟨g, rfl⟩ : ∃ g, fuel = g + 1 := ⟨fuel - 1, by omega⟩
        rw [parseExpression_noPrefix g LOWEST (nextToken st)
          (by rw [hcur]; simp [prefixParseFn])]
        dsimp only
        rcases h2 : expectPeek (noPrefixPerseFnErrror (nextToken st)
            (nextToken st).curToken.type) .RBRACKET with ⟨b2, st3⟩
        have h4 := mu_noPrefixErr (nextToken st) (nextToken st).curToken.type
        have h5 := mu_nextToken_le st
        cases b2 with
        | false =>
          refine ⟨none, st3, rfl, ?_⟩
          have := expectPeek_eq_false_mu h2
          omega
        | true =>
          dsimp only
          refine ⟨_, st3, rfl, ?_⟩
          have := expectPeek_eq_true_mu h2 (by simp)
          omega
      · have hlt := mu_nextToken_lt st h0
        obtain ⟨idx, st2, hPE, hm⟩ := ihPE LOWEST (nextToken st) (by omega)
        rw [hPE]
        dsimp only
        rcases h2 : expectPeek st2 .RBRACKET with ⟨b2, st3⟩
        cases b2 with
        | false =>
          refine ⟨none, st3, rfl, ?_⟩
          have := expectPeek_eq_false_mu h2
          omega
        | true =>
          dsimp only
          refine ⟨_, st3, rfl, ?_⟩
          have := expectPeek_eq_true_mu h2 (by simp)
          omega
    · -- parseArrayLiteral
      intro st h
      simp only [mkParsers]
      obtain ⟨elems, st1, hEL, hm⟩ := ihEL .RBRACKET st (by omega)
      rw [hEL]
      exact ⟨_, st1, rfl, hm⟩
    · -- parseHashLiteral
      intro st h
      simp only [mkParsers]
      obtain ⟨r, st1, hHL2, hm⟩ := ihHL st.curToken [] st (by omega)
      exact ⟨r, st1, hHL2, hm⟩
    · -- parseHashLoop
      intro tok ps st h
      simp only [mkParsers]
      by_cases hp : (¬ peekTokenIs st .RBRACE = true)
      · rw [if_pos hp]
        rcases Nat.eq_zero_or_pos (mu st) with h0 | h0
        · have hpk := mu_zero_peek st h0
          have hrest := mu_zero_rest st h0
          have hcur : (nextToken st).curToken.type = .EOF := by simp [nextToken, hpk]
          obtain ⟨g, rfl⟩ : ∃ g, fuel = g + 1 := ⟨fuel - 1, by omega⟩
          rw [parseExpression_noPrefix g LOWEST (nextToken st)
            (by rw [hcur]; simp [prefixParseFn])]
          dsimp only
          rcases h2 : expectPeek (noPrefixPerseFnErrror (nextToken st)
              (nextToken st).curToken.type) .COLON with ⟨b2, st3⟩
          have h4 := mu_noPrefixErr (nextToken st) (nextToken st).curToken.type
          have h5 := mu_nextToken_le st
          cases b2 with
          | false =>
            refine ⟨none, st3, rfl, ?_⟩
            have := expectPeek_eq_false_mu h2
            omega
          | true =>
            exfalso
            obtain ⟨_, hpk2⟩ := expectPeek_eq_true h2
            simp [noPrefixPerseFnErrror, nextToken, hrest, lexNext, eofToken] at hpk2
        · have hlt1 := mu_nextToken_lt st h0
          obtain ⟨key, st2, hPE1, hm2⟩ := ihPE LOWEST (nextToken st) (by omega)
          rw [hPE1]
          dsimp only
          rcases h3 : expectPeek st2 .COLON with ⟨b3, st3⟩
          cases b3 with
          | false =>
            refine ⟨none, st3, rfl, ?_⟩
            have := expectPeek_eq_false_mu h3
            omega
          | true =>
            dsimp only
            have hm3 : mu st3 < mu st2 := expectPeek_eq_true_mu h3 (by simp)
            have hle4 := mu_nextToken_le st3
            obtain ⟨value, st5, hPE2, hm5⟩ := ihPE LOWEST (nextToken st3) (by omega)
            rw [hPE2]
            dsimp only
            by_cases hp5 : (¬ peekTokenIs st5 .RBRACE = true)
            · rw [if_pos hp5]
              rcases h6 : expectPeek st5 .COMMA with ⟨b6, st6⟩
              cases b6 with
              | false =>
                refine ⟨none, st6, rfl, ?_⟩
                have := expectPeek_eq_false_mu h6
                omega
              | true =>
                dsimp only
                have hm6 : mu st6 < mu st5 := expectPeek_eq_true_mu h6 (by simp)
                obtain ⟨r, st7, hHL2, hm7⟩ := ihHL tok (ps ++ [(key, value)]) st6
                  (by omega)
                exact ⟨r, st7, hHL2, by omega⟩
            · rw [if_neg hp5]
              obtain ⟨r, st7, hHL2, hm7⟩ := ihHL tok (ps ++ [(key, value)]) st5
                (by omega)
              exact ⟨r, st7, hHL2, by omega⟩
      · rw [if_neg hp]
        rcases h2 : expectPeek st .RBRACE with ⟨b2, st1⟩
        cases b2 with
        | false =>
          refine ⟨none, st1, rfl, ?_⟩
          rw [expectPeek_eq_false_mu h2]
        | true =>
          dsimp only
          refine ⟨some (.hashLiteral tok ps), st1, rfl, ?_⟩
          obtain ⟨hst, _⟩ := expectPeek_eq_true h2
          subst hst
          exact mu_nextToken_le st

theorem decimalAcc_cons (n : Nat) (c : Char) (cs : List Char) :
    decimalAcc n (c :: cs) = decimalAcc (n * 10 + (c.toNat - 48)) cs := rfl

theorem le_decimalAcc (ds : List Char) : ∀ n, n ≤ decimalAcc n ds := by
  induction ds with
  | nil => intro n; exact le_refl n
  | cons c cs ih =>
    intro n
    have := ih (n * 10 + (c.toNat - 48))
    rw [decimalAcc_cons]
    omega

theorem parseUintLoop_exact (ds : List Char) :
    ∀ n, (∀ c ∈ ds, 48 ≤ c.toNat ∧ c.toNat ≤ 57) →
      decimalAcc n ds ≤ maxUint64 →
      parseUintLoop 10 (maxUint64 / 10 + 1) maxUint64 ds n false =
        (decimalAcc n ds, none, false) := by
  induction ds with
  | nil => intro n _ _; rfl
  | cons c cs ih =>
    intro n hdig hle
    obtain ⟨hc1, hc2⟩ := hdig c (List.mem_cons_self c cs)
    have hnotu : ¬ c = '_' := by
      intro hx
      subst hx
      simp at hc2
    have hdv : digitVal c = some (c.toNat - 48) := by
      unfold digitVal
      rw [if_pos ⟨hc1, hc2⟩]
      rfl
    rw [decimalAcc_cons] at hle
    rw [decimalAcc_cons]
    have hmono := le_decimalAcc cs (n * 10 + (c.toNat - 48))
    have hcut : maxUint64 / 10 + 1 = 1844674407370955162 := by norm_num [maxUint64]
    have hmax : maxUint64 = 18446744073709551615 := rfl
    unfold parseUintLoop
    rw [if_neg hnotu, hdv]
    dsimp only
    rw [if_neg (by omega), if_neg (by omega), if_neg (by omega)]
    exact ih (n * 10 + (c.toNat - 48)) (fun d hd => hdig d (List.mem_cons_of_mem c hd)) hle

theorem parseUintLoop_range (ds : List Char) :
    ∀ n, (∀ c ∈ ds, 48 ≤ c.toNat ∧ c.toNat ≤ 57) →
      n ≤ maxUint64 → maxUint64 < decimalAcc n ds →
      parseUintLoop 10 (maxUint64 / 10 + 1) maxUint64 ds n false =
        (maxUint64, some .rangeErr, false) := by
  induction ds with
  | nil =>
    intro n _ hn hgt
    simp only [decimalAcc, List.foldl_nil] at hgt
    omega
  | cons c cs ih =>
    intro n hdig hn hgt
    obtain ⟨hc1, hc2⟩ := hdig c (List.mem_cons_self c cs)
    have hnotu : ¬ c = '_' := by
      intro hx
      subst hx
      simp at hc2
    have hdv : digitVal c = some (c.toNat - 48) := by
      unfold digitVal
      rw [if_pos ⟨hc1, hc2⟩]
      rfl
    rw [decimalAcc_cons] at hgt
    have hmono := le_decimalAcc cs (n * 10 + (c.toNat - 48))
    have hcut : maxUint64 / 10 + 1 = 1844674407370955162 := by norm_num [maxUint64]
    have hmax : maxUint64 = 18446744073709551615 := rfl
    unfold parseUintLoop
    rw [if_neg hnotu, hdv]
    dsimp only
    rw [if_neg (by omega)]
    by_cases hcu : maxUint64 / 10 + 1 ≤ n
    · rw [if_pos hcu]
    · rw [if_neg hcu]
      by_cases hov : maxUint64 < n * 10 + (c.toNat - 48)
      · rw [if_pos hov]
      · rw [if_neg hov]
        exact ih (n * 10 + (c.toNat - 48))
          (fun d hd => hdig d (List.mem_cons_of_mem c hd)) (by omega) hgt

theorem goParseUint_decimal (c0 : Char) (cs : List Char)
    (h0 : ¬ c0 = '0') (hdig : ∀ c ∈ c0 :: cs, 48 ≤ c.toNat ∧ c.toNat ≤ 57) :
    goParseUint (c0 :: cs) =
      if decimalAcc 0 (c0 :: cs) ≤ maxUint64 then (decimalAcc 0 (c0 :: cs), none)
      else (maxUint64, some .rangeErr) := by
  unfold goParseUint
  dsimp only
  rw [if_neg h0]
  dsimp only
  by_cases hle : decimalAcc 0 (c0 :: cs) ≤ maxUint64
  · rw [parseUintLoop_exact (c0 :: cs) 0 hdig hle]
    dsimp only
    rw [if_neg (by simp), if_pos hle]
  · rw [parseUintLoop_range (c0 :: cs) 0 hdig
      (by rw [show maxUint64 = 18446744073709551615 from rfl]; omega) (by omega)]
    dsimp only
    rw [if_neg hle]

theorem goParseInt_decimal (s : String) (hne : s.data ≠ [])
    (hdig : ∀ c ∈ s.data, 48 ≤ c.toNat ∧ c.toNat ≤ 57)
    (hlead : s.data.head? ≠ some '0') :
    goParseInt s = if decimalValue s < 2 ^ 63 then ((decimalValue s : Int), none)
      else (maxInt64, some .rangeErr) := by
  unfold goParseInt
  rcases hd : s.data with _ | ⟨c0, cs⟩
  · exact absurd hd hne
  · obtain ⟨hc1, hc2⟩ := (hd ▸ hdig) c0 (List.mem_cons_self c0 cs)
    have hplus : ¬ c0 = '+' := by intro hx; subst hx; simp at hc1
    have hminus : ¬ c0 = '-' := by intro hx; subst hx; simp at hc1
    have h0 : ¬ c0 = '0' := by
      intro hx
      rw [hd, hx] at hlead
      simp at hlead
    dsimp only
    rw [if_neg hplus, if_neg hminus]
    dsimp only
    rw [goParseUint_decimal c0 cs h0 (hd ▸ hdig)]
    have hdv : decimalValue s = decimalAcc 0 (c0 :: cs) := by
      unfold decimalValue
      rw [hd]
    have hmax : maxUint64 = 18446744073709551615 := rfl
    rw [hdv]
    by_cases hle : decimalAcc 0 (c0 :: cs) ≤ maxUint64
    · rw [if_pos hle]
      dsimp only
      split_ifs <;> first | rfl | omega | (simp_all; omega) | simp_all
    · rw [if_neg hle]
      dsimp only
      split_ifs <;> first | rfl | omega | (simp_all; omega) | simp_all

/-! ### The claims -/

/-- C1: for every chaining of two registered plain infix operators of equal
precedence, `parseExpression` groups to the left, producing
`InfixExpression(op2, InfixExpression(op1, a, b), c)`; and in particular
`a + b * c + d / e - f` parses to `(((a + (b * c)) + (d / e)) - f)`. -/
theorem claim_C1_infix_left_associative (a b c l1 l2 : String) (op1 op2 : TokenType)
    (h1 : op1 ∈ [TokenType.PLUS, .MINUS, .SLASH, .ASTERISK, .EQ, .NOT_EQ, .LT, .GT])
    (h2 : op2 ∈ [TokenType.PLUS, .MINUS, .SLASH, .ASTERISK, .EQ, .NOT_EQ, .LT, .GT])
    (heq : getPrecedence op1 = getPrecedence op2) :
    (parseExpressionTop [⟨.IDENT, a⟩, ⟨op1, l1⟩, ⟨.IDENT, b⟩, ⟨op2, l2⟩, ⟨.IDENT, c⟩] =
      some (some (.infixExpression ⟨op2, l2⟩ l2
        (some (.infixExpression ⟨op1, l1⟩ l1
          (some (.identifier ⟨⟨.IDENT, a⟩, a⟩))
          (some (.identifier ⟨⟨.IDENT, b⟩, b⟩))))
        (some (.identifier ⟨⟨.IDENT, c⟩, c⟩))),
        ⟨⟨.IDENT, c⟩, eofToken, [], []⟩)) ∧
    parseExpressionTop [⟨.IDENT, "a"⟩, ⟨.PLUS, "+"⟩, ⟨.IDENT, "b"⟩, ⟨.ASTERISK, "*"⟩,
        ⟨.IDENT, "c"⟩, ⟨.PLUS, "+"⟩, ⟨.IDENT, "d"⟩, ⟨.SLASH, "/"⟩, ⟨.IDENT, "e"⟩,
        ⟨.MINUS, "-"⟩, ⟨.IDENT, "f"⟩] =
      some (some (.infixExpression ⟨.MINUS, "-"⟩ "-"
        (some (.infixExpression ⟨.PLUS, "+"⟩ "+"
          (some (.infixExpression ⟨.PLUS, "+"⟩ "+"
            (some (.identifier ⟨⟨.IDENT, "a"⟩, "a"⟩))
            (some (.infixExpression ⟨.ASTERISK, "*"⟩ "*"
              (some (.identifier ⟨⟨.IDENT, "b"⟩, "b"⟩))
              (some (.identifier ⟨⟨.IDENT, "c"⟩, "c"⟩))))))
          (some (.infixExpression ⟨.SLASH, "/"⟩ "/"
            (some (.identifier ⟨⟨.IDENT, "d"⟩, "d"⟩))
            (some (.identifier ⟨⟨.IDENT, "e"⟩, "e"⟩))))))
        (some (.identifier ⟨⟨.IDENT, "f"⟩, "f"⟩))),
        ⟨⟨.IDENT, "f"⟩, eofToken, [], []⟩) := by
  refine ⟨?_, rfl⟩
  fin_cases h1 <;> fin_cases h2 <;>
    first
      | exact absurd heq (by decide)
      | rfl

/-- Witness for C1: `x + y - z` parses as `((x + y) - z)`. -/
theorem claim_C1_witness :
    parseExpressionTop [⟨.IDENT, "x"⟩, ⟨.PLUS, "+"⟩, ⟨.IDENT, "y"⟩, ⟨.MINUS, "-"⟩,
        ⟨.IDENT, "z"⟩] =
      some (some (.infixExpression ⟨.MINUS, "-"⟩ "-"
        (some (.infixExpression ⟨.PLUS, "+"⟩ "+"
          (some (.identifier ⟨⟨.IDENT, "x"⟩, "x"⟩))
          (some (.identifier ⟨⟨.IDENT, "y"⟩, "y"⟩))))
        (some (.identifier ⟨⟨.IDENT, "z"⟩, "z"⟩))),
        ⟨⟨.IDENT, "z"⟩, eofToken, [], []⟩) :=
  (claim_C1_infix_left_associative "x" "y" "z" "+" "-" .PLUS .MINUS
    (by decide) (by decide) (by decide)).1

/-- C2: for operators on different rungs of the precedence ladder the
higher-precedence operator binds its operands first: `a op1 b op2 c` with
`op1` lower than `op2` parses as `InfixExpression(op1, a, InfixExpression(op2,
b, c))`; moreover `-a * b` parses as `((-a) * b)` and `a * b[2]` as
`(a * (b[2]))`. -/
theorem claim_C2_higher_precedence_binds_first (a b c l1 l2 : String)
    (op1 op2 : TokenType)
    (h1 : op1 ∈ [TokenType.PLUS, .MINUS, .SLASH, .ASTERISK, .EQ, .NOT_EQ, .LT, .GT])
    (h2 : op2 ∈ [TokenType.PLUS, .MINUS, .SLASH, .ASTERISK, .EQ, .NOT_EQ, .LT, .GT])
    (hlt : getPrecedence op1 < getPrecedence op2) :
    (parseExpressionTop [⟨.IDENT, a⟩, ⟨op1, l1⟩, ⟨.IDENT, b⟩, ⟨op2, l2⟩, ⟨.IDENT, c⟩] =
      some (some (.infixExpression ⟨op1, l1⟩ l1
        (some (.identifier ⟨⟨.IDENT, a⟩, a⟩))
        (some (.infixExpression ⟨op2, l2⟩ l2
          (some (.identifier ⟨⟨.IDENT, b⟩, b⟩))
          (some (.identifier ⟨⟨.IDENT, c⟩, c⟩))))),
        ⟨⟨.IDENT, c⟩, eofToken, [], []⟩)) ∧
    parseExpressionTop [⟨.MINUS, "-"⟩, ⟨.IDENT, "a"⟩, ⟨.ASTERISK, "*"⟩, ⟨.IDENT, "b"⟩] =
      some (some (.infixExpression ⟨.ASTERISK, "*"⟩ "*"
        (some (.prefixExpression ⟨.MINUS, "-"⟩ "-"
          (some (.identifier ⟨⟨.IDENT, "a"⟩, "a"⟩))))
        (some (.identifier ⟨⟨.IDENT, "b"⟩, "b"⟩))),
        ⟨⟨.IDENT, "b"⟩, eofToken, [], []⟩) ∧
    parseExpressionTop [⟨.IDENT, "a"⟩, ⟨.ASTERISK, "*"⟩, ⟨.IDENT, "b"⟩,
        ⟨.LBRACKET, "["⟩, ⟨.INT, "2"⟩, ⟨.RBRACKET, "]"⟩] =
      some (some (.infixExpression ⟨.ASTERISK, "*"⟩ "*"
        (some (.identifier ⟨⟨.IDENT, "a"⟩, "a"⟩))
        (some (.indexExpression ⟨.LBRACKET, "["⟩
          (some (.identifier ⟨⟨.IDENT, "b"⟩, "b"⟩))
          (some (.integerLiteral ⟨.INT, "2"⟩ 2))))),
        ⟨⟨.RBRACKET, "]"⟩, eofToken, [], []⟩) := by
  refine ⟨?_, rfl, rfl⟩
  fin_cases h1 <;> fin_cases h2 <;>
    first
      | exact absurd hlt (by decide)
      | rfl

/-- Witness for C2: `x + y / z` parses as `(x + (y / z))`. -/
theorem claim_C2_witness :
    parseExpressionTop [⟨.IDENT, "x"⟩, ⟨.PLUS, "+"⟩, ⟨.IDENT, "y"⟩, ⟨.SLASH, "/"⟩,
        ⟨.IDENT, "z"⟩] =
      some (some (.infixExpression ⟨.PLUS, "+"⟩ "+"
        (some (.identifier ⟨⟨.IDENT, "x"⟩, "x"⟩))
        (some (.infixExpression ⟨.SLASH, "/"⟩ "/"
          (some (.identifier ⟨⟨.IDENT, "y"⟩, "y"⟩))
          (some (.identifier ⟨⟨.IDENT, "z"⟩, "z"⟩))))),
        ⟨⟨.IDENT, "z"⟩, eofToken, [], []⟩) :=
  (claim_C2_higher_precedence_binds_first "x" "y" "z" "+" "/" .PLUS .SLASH
    (by decide) (by decide) (by decide)).1

/-- C3 (code bug): on `let x 5;` the let-statement sub-parse returns the nil
`*ast.LetStatement`, but `parseStatement` converts that nil pointer to a
NON-nil `ast.Statement` interface value, so `ParseProgram`'s `stmt != nil`
check passes and a typed-nil statement IS appended to the program.  The
returned program is `[typed-nil, ExpressionStatement(5)]`, not
`[ExpressionStatement(5)]` as the claim (and the spec) state. -/
theorem claim_C3_typed_nil_is_appended :
    (mkParsers (stdFuel [⟨.LET, "let"⟩, ⟨.IDENT, "x"⟩, ⟨.INT, "5"⟩,
        ⟨.SEMICOLON, ";"⟩])).parseLetStatement
      (newParser [⟨.LET, "let"⟩, ⟨.IDENT, "x"⟩, ⟨.INT, "5"⟩, ⟨.SEMICOLON, ";"⟩]) =
      some (none, ⟨⟨.IDENT, "x"⟩, ⟨.INT, "5"⟩, [⟨.SEMICOLON, ";"⟩],
        ["expected next token to be =, got INT instead"]⟩) ∧
    parseTokens [⟨.LET, "let"⟩, ⟨.IDENT, "x"⟩, ⟨.INT, "5"⟩, ⟨.SEMICOLON, ";"⟩] =
      some (⟨[.typedNilLet,
        .node (.expressionStatement ⟨.INT, "5"⟩ (some (.integerLiteral ⟨.INT, "5"⟩ 5)))]⟩,
        ⟨eofToken, eofToken, [], ["expected next token to be =, got INT instead"]⟩) :=
  ⟨rfl, rfl⟩

/-- C4 counterexample: the integer parse is not strictly base-10.  The INT
literal `010` is read with `strconv.ParseInt`'s base-0 rules, so its value is
octal 8, not 10; and the literal `08`, whose value 8 fits an `int64`, still
records the could-not-parse error because 8 is not an octal digit. -/
theorem claim_C4_counterexample :
    parseIntegerLiteral ⟨⟨.INT, "010"⟩, eofToken, [], []⟩ =
      (.integerLiteral ⟨.INT, "010"⟩ 8, ⟨⟨.INT, "010"⟩, eofToken, [], []⟩) ∧
    (8 : Int) ≠ 10 ∧
    parseIntegerLiteral ⟨⟨.INT, "08"⟩, eofToken, [], []⟩ =
      (.integerLiteral ⟨.INT, "08"⟩ 0, ⟨⟨.INT, "08"⟩, eofToken, [],
        ["could not parse \"08\" as integer"]⟩) :=
  ⟨rfl, by decide, rfl⟩

/-- C4 as amended: for an INT literal without a leading zero the value is the
base-10 value and the error `could not parse "<literal>" as integer` (with the
`%q` quotes) is recorded exactly when that value does not fit in a 64-bit
signed integer (the node then carries the clamped value `maxInt64`); a literal
with a leading zero is instead read as octal, e.g. `010` denotes 8. -/
theorem claim_C4_base_prefix_parse (s : String) (st : ParserState)
    (hlit : st.curToken.literal = s)
    (hne : s.data ≠ [])
    (hdig : ∀ c ∈ s.data, 48 ≤ c.toNat ∧ c.toNat ≤ 57)
    (hlead : s.data.head? ≠ some '0') :
    ((decimalValue s < 2 ^ 63 →
      parseIntegerLiteral st =
        (.integerLiteral st.curToken (decimalValue s), st)) ∧
     (2 ^ 63 ≤ decimalValue s →
      parseIntegerLiteral st = (.integerLiteral st.curToken maxInt64,
        { st with errors := st.errors ++
          ["could not parse " ++ goQuote s ++ " as integer"] }))) ∧
    parseIntegerLiteral ⟨⟨.INT, "010"⟩, eofToken, [], []⟩ =
      (.integerLiteral ⟨.INT, "010"⟩ 8, ⟨⟨.INT, "010"⟩, eofToken, [], []⟩) := by
  refine ⟨⟨?_, ?_⟩, rfl⟩
  · intro hlt
    unfold parseIntegerLiteral
    rw [hlit, goParseInt_decimal s hne hdig hlead, if_pos hlt]
  · intro hge
    unfold parseIntegerLiteral
    rw [hlit, goParseInt_decimal s hne hdig hlead, if_neg (by omega)]

/-- Witness for C4: `9223372036854775808` is one past `maxInt64`, so the
parser records the error and clamps the node value to `maxInt64`. -/
theorem claim_C4_witness :
    parseIntegerLiteral ⟨⟨.INT, "9223372036854775808"⟩, eofToken, [], []⟩ =
      (.integerLiteral ⟨.INT, "9223372036854775808"⟩ maxInt64,
        ⟨⟨.INT, "9223372036854775808"⟩, eofToken, [],
          ["could not parse \"9223372036854775808\" as integer"]⟩) :=
  (claim_C4_base_prefix_parse "9223372036854775808"
    ⟨⟨.INT, "9223372036854775808"⟩, eofToken, [], []⟩ rfl (by decide)
    (by decide) (by decide)).1.2 (by decide)

/-- C5 counterexample: `parseHashLiteral` stores the pairs in the unordered Go
map `map[ast.Expression]ast.Expression`.  For the source `{"a":1, "b":2}` the
reversed sequence is among the possible iteration orders of that map, and it
differs from the source order, so iterating the node's pairs does NOT
necessarily yield them in the order the keys appear in the source text. -/
theorem claim_C5_counterexample :
    parseExpressionTop [⟨.LBRACE, "\x7b"⟩, ⟨.STRING, "a"⟩, ⟨.COLON, ":"⟩, ⟨.INT, "1"⟩,
        ⟨.COMMA, ","⟩, ⟨.STRING, "b"⟩, ⟨.COLON, ":"⟩, ⟨.INT, "2"⟩, ⟨.RBRACE, "\x7d"⟩] =
      some (some (Expression.hashLiteral ⟨.LBRACE, "\x7b"⟩
        [(some (Expression.stringLiteral ⟨.STRING, "a"⟩ "a"),
          some (Expression.integerLiteral ⟨.INT, "1"⟩ 1)),
         (some (Expression.stringLiteral ⟨.STRING, "b"⟩ "b"),
          some (Expression.integerLiteral ⟨.INT, "2"⟩ 2))]),
        ⟨⟨.RBRACE, "\x7d"⟩, eofToken, [], []⟩) ∧
    [(some (Expression.stringLiteral ⟨.STRING, "b"⟩ "b"),
      some (Expression.integerLiteral ⟨.INT, "2"⟩ 2)),
     (some (Expression.stringLiteral ⟨.STRING, "a"⟩ "a"),
      some (Expression.integerLiteral ⟨.INT, "1"⟩ 1))] ∈
      goMapIterOrders
        [(some (Expression.stringLiteral ⟨.STRING, "a"⟩ "a"),
          some (Expression.integerLiteral ⟨.INT, "1"⟩ 1)),
         (some (Expression.stringLiteral ⟨.STRING, "b"⟩ "b"),
          some (Expression.integerLiteral ⟨.INT, "2"⟩ 2))] ∧
    [(some (Expression.stringLiteral ⟨.STRING, "b"⟩ "b"),
      some (Expression.integerLiteral ⟨.INT, "2"⟩ 2)),
     (some (Expression.stringLiteral ⟨.STRING, "a"⟩ "a"),
      some (Expression.integerLiteral ⟨.INT, "1"⟩ 1))] ≠
    [(some (Expression.stringLiteral ⟨.STRING, "a"⟩ "a"),
      some (Expression.integerLiteral ⟨.INT, "1"⟩ 1)),
     (some (Expression.stringLiteral ⟨.STRING, "b"⟩ "b"),
      some (Expression.integerLiteral ⟨.INT, "2"⟩ 2))] := by
  refine ⟨rfl, ?_, by simp⟩
  exact List.Perm.swap _ _ _

/-- C5 as amended: `parseHashLiteral` stores exactly the source key-value
pairs (here shown for `{"a":1, "b":2}`) as the entries of the Go map, but the
map is unordered: every possible iteration order of the map delivers exactly
the source pairs as an (unordered) multiset, not necessarily in source
order. -/
theorem claim_C5_unordered_pairs :
    (parseExpressionTop [⟨.LBRACE, "\x7b"⟩, ⟨.STRING, "a"⟩, ⟨.COLON, ":"⟩, ⟨.INT, "1"⟩,
        ⟨.COMMA, ","⟩, ⟨.STRING, "b"⟩, ⟨.COLON, ":"⟩, ⟨.INT, "2"⟩, ⟨.RBRACE, "\x7d"⟩] =
      some (some (Expression.hashLiteral ⟨.LBRACE, "\x7b"⟩
        [(some (Expression.stringLiteral ⟨.STRING, "a"⟩ "a"),
          some (Expression.integerLiteral ⟨.INT, "1"⟩ 1)),
         (some (Expression.stringLiteral ⟨.STRING, "b"⟩ "b"),
          some (Expression.integerLiteral ⟨.INT, "2"⟩ 2))]),
        ⟨⟨.RBRACE, "\x7d"⟩, eofToken, [], []⟩)) ∧
    (∀ l ∈ goMapIterOrders
        [(some (Expression.stringLiteral ⟨.STRING, "a"⟩ "a"),
          some (Expression.integerLiteral ⟨.INT, "1"⟩ 1)),
         (some (Expression.stringLiteral ⟨.STRING, "b"⟩ "b"),
          some (Expression.integerLiteral ⟨.INT, "2"⟩ 2))],
      (l : Multiset (Option Expression × Option Expression)) =
        ([(some (Expression.stringLiteral ⟨.STRING, "a"⟩ "a"),
           some (Expression.integerLiteral ⟨.INT, "1"⟩ 1)),
          (some (Expression.stringLiteral ⟨.STRING, "b"⟩ "b"),
           some (Expression.integerLiteral ⟨.INT, "2"⟩ 2))] :
          List (Option Expression × Option Expression))) := by
  refine ⟨rfl, ?_⟩
  intro l hl
  exact Multiset.coe_eq_coe.mpr hl

/-- Witness for C5: the reversed iteration order delivers the same multiset of
pairs. -/
theorem claim_C5_witness :
    ([(some (Expression.stringLiteral ⟨.STRING, "b"⟩ "b"),
       some (Expression.integerLiteral ⟨.INT, "2"⟩ 2)),
      (some (Expression.stringLiteral ⟨.STRING, "a"⟩ "a"),
       some (Expression.integerLiteral ⟨.INT, "1"⟩ 1))] :
      Multiset (Option Expression × Option Expression)) =
    ([(some (Expression.stringLiteral ⟨.STRING, "a"⟩ "a"),
       some (Expression.integerLiteral ⟨.INT, "1"⟩ 1)),
      (some (Expression.stringLiteral ⟨.STRING, "b"⟩ "b"),
       some (Expression.integerLiteral ⟨.INT, "2"⟩ 2))] :
      List (Option Expression × Option Expression)) :=
  claim_C5_unordered_pairs.2 _ (List.Perm.swap _ _ _)

/-- C6: whenever `expectPeek` fails, for any expected token kind and any
actual peek token, the parser appends exactly
`expected next token to be <want>, got <got> instead`; and parsing
`let x 5;` yields exactly the error list
`["expected next token to be =, got INT instead"]`. -/
theorem claim_C6_peek_error_message :
    (∀ (t : TokenType) (st : ParserState), ¬ st.peekToken.type = t →
      expectPeek st t = (false, { st with errors := st.errors ++
        ["expected next token to be " ++ t.str ++ ", got " ++
          st.peekToken.type.str ++ " instead"] })) ∧
    (parseTokens [⟨.LET, "let"⟩, ⟨.IDENT, "x"⟩, ⟨.INT, "5"⟩,
        ⟨.SEMICOLON, ";"⟩]).map (fun r => Errors r.2) =
      some ["expected next token to be =, got INT instead"] := by
  refine ⟨?_, rfl⟩
  intro t st h
  unfold expectPeek
  rw [if_neg (by simpa [peekTokenIs] using h)]
  rfl

/-- Witness for C6: `expectPeek` for `=` with an INT peek token appends the
exact message of the spec's parser error test. -/
theorem claim_C6_witness :
    expectPeek ⟨⟨.LET, "let"⟩, ⟨.INT, "5"⟩, [], []⟩ .ASSIGN =
      (false, ⟨⟨.LET, "let"⟩, ⟨.INT, "5"⟩, [],
        ["expected next token to be =, got INT instead"]⟩) :=
  claim_C6_peek_error_message.1 .ASSIGN ⟨⟨.LET, "let"⟩, ⟨.INT, "5"⟩, [], []⟩
    (by decide)

/-- C7: when the current token's kind has no registered prefix parse function,
`parseExpression` appends exactly `no prefix parse function for <kind> found`
and returns nil, leaving the current token, the peek token and the remaining
stream untouched. -/
theorem claim_C7_no_prefix_fn_error (fuel p : Nat) (st : ParserState)
    (h : prefixParseFn st.curToken.type = none) :
    (mkParsers (fuel + 1)).parseExpression p st =
      some (none, { st with errors := st.errors ++
        ["no prefix parse function for " ++ st.curToken.type.str ++ " found"] }) := by
  rw [parseExpression_noPrefix fuel p st h]
  rfl

/-- Witness for C7: at a `=` token the message is
`no prefix parse function for = found` and the cursor is unchanged. -/
theorem claim_C7_witness :
    (mkParsers 1).parseExpression LOWEST ⟨⟨.ASSIGN, "="⟩, eofToken, [], []⟩ =
      some (none, ⟨⟨.ASSIGN, "="⟩, eofToken, [],
        ["no prefix parse function for = found"]⟩) :=
  claim_C7_no_prefix_fn_error 0 LOWEST ⟨⟨.ASSIGN, "="⟩, eofToken, [], []⟩ rfl

/-- C8: `ParseProgram` always returns a program: for every token stream the
parse (run with sufficient fuel, as `parseTokens` does) completes with a
`Program` and a final state whose error list holds the accumulated messages;
on `let x 5; return 5;` the failed let-statement only contributes its peek
error while the remaining statements are still parsed. -/
theorem claim_C8_never_throws :
    (∀ tokens : List Token, ∃ prog st', parseTokens tokens = some (prog, st')) ∧
    parseTokens [⟨.LET, "let"⟩, ⟨.IDENT, "x"⟩, ⟨.INT, "5"⟩, ⟨.SEMICOLON, ";"⟩,
        ⟨.RETURN, "return"⟩, ⟨.INT, "5"⟩, ⟨.SEMICOLON, ";"⟩] =
      some (⟨[.typedNilLet,
        .node (.expressionStatement ⟨.INT, "5"⟩ (some (.integerLiteral ⟨.INT, "5"⟩ 5))),
        .node (.returnStatement ⟨.RETURN, "return"⟩
          (some (.integerLiteral ⟨.INT, "5"⟩ 5)))]⟩,
        ⟨eofToken, eofToken, [], ["expected next token to be =, got INT instead"]⟩) := by
  refine ⟨?_, rfl⟩
  intro tokens
  obtain ⟨r, st', hR, _⟩ := (parsersTotal (stdFuel tokens)).1 [] (newParser tokens)
    (le_refl _)
  exact ⟨⟨r⟩, st', by unfold parseTokens ParseProgram; rw [hR]⟩

/-- Witness for C8: a one-token stream parses to a program. -/
theorem claim_C8_witness :
    ∃ prog st', parseTokens [⟨.INT, "1"⟩] = some (prog, st') :=
  claim_C8_never_throws.1 [⟨.INT, "1"⟩]

/-- C9: `ParseProgram` terminates on every finite input: with the lexer
modelled as returning `EOF` repeatedly at end of input, any fuel of at least
`stdFuel tokens` (linear in the stream length) lets the whole statement loop
run to completion, so parsing never runs out of fuel and is total. -/
theorem claim_C9_parser_terminates (tokens : List Token) (fuel : Nat)
    (h : stdFuel tokens ≤ fuel) :
    ∃ prog st', ParseProgram fuel (newParser tokens) = some (prog, st') := by
  obtain ⟨r, st', hR, _⟩ := (parsersTotal fuel).1 [] (newParser tokens)
    (by unfold stdFuel at h; omega)
  exact ⟨⟨r⟩, st', by unfold ParseProgram; rw [hR]⟩

/-- Witness for C9: fuel 64 suffices for the one-token stream `1`. -/
theorem claim_C9_witness :
    ∃ prog st', ParseProgram 64 (newParser [⟨.INT, "1"⟩]) = some (prog, st') :=
  claim_C9_parser_terminates [⟨.INT, "1"⟩] 64 (by decide)

/-- C10: `parseFunctionParameters` never checks that a parameter token is an
IDENT: any two tokens (the first not a `)`) separated by a comma are accepted
without error, producing Identifier nodes carrying those tokens' literals; in
particular `fn(1, true) { x }` parses without error to a FunctionLiteral with
parameter literals `1` and `true`. -/
theorem claim_C10_parameters_not_validated (cur t1 t2 : Token) (lc lr : String)
    (more : List Token) (errs : List String) (fuel : Nat)
    (h : ¬ t1.type = .RPAREN) :
    ((mkParsers (fuel + 3)).parseFunctionParameters
        ⟨cur, t1, ⟨.COMMA, lc⟩ :: t2 :: ⟨.RPAREN, lr⟩ :: more, errs⟩ =
      some (some [⟨t1, t1.literal⟩, ⟨t2, t2.literal⟩],
        ⟨⟨.RPAREN, lr⟩, (lexNext more).1, (lexNext more).2, errs⟩)) ∧
    parseExpressionTop [⟨.FUNCTION, "fn"⟩, ⟨.LPAREN, "("⟩, ⟨.INT, "1"⟩, ⟨.COMMA, ","⟩,
        ⟨.TRUE, "true"⟩, ⟨.RPAREN, ")"⟩, ⟨.LBRACE, "\x7b"⟩, ⟨.IDENT, "x"⟩,
        ⟨.RBRACE, "\x7d"⟩] =
      some (some (.functionLiteral ⟨.FUNCTION, "fn"⟩
        (some [⟨⟨.INT, "1"⟩, "1"⟩, ⟨⟨.TRUE, "true"⟩, "true"⟩])
        (.mk ⟨.LBRACE, "\x7b"⟩
          [.node (.expressionStatement ⟨.IDENT, "x"⟩
            (some (.identifier ⟨⟨.IDENT, "x"⟩, "x"⟩)))])),
        ⟨⟨.RBRACE, "\x7d"⟩, eofToken, [], []⟩) := by
  refine ⟨?_, rfl⟩
  simp only [mkParsers]
  rw [if_neg (by simpa [peekTokenIs] using h)]
  rfl

/-- Witness for C10: INT and TRUE tokens are accepted as parameters. -/
theorem claim_C10_witness :
    (mkParsers 3).parseFunctionParameters
        ⟨⟨.LPAREN, "("⟩, ⟨.INT, "1"⟩, [⟨.COMMA, ","⟩, ⟨.TRUE, "true"⟩,
          ⟨.RPAREN, ")"⟩], []⟩ =
      some (some [⟨⟨.INT, "1"⟩, "1"⟩, ⟨⟨.TRUE, "true"⟩, "true"⟩],
        ⟨⟨.RPAREN, ")"⟩, eofToken, [], []⟩) :=
  (claim_C10_parameters_not_validated ⟨.LPAREN, "("⟩ ⟨.INT, "1"⟩ ⟨.TRUE, "true"⟩
    "," ")" [] [] 0 (by decide)).1

end Monkey
